import Mathlib

/-!
Shallow embedding of the libplist-posix repository (plist tree operations from
plist.c / unnamed part_002, and the incremental text parser plist_txt.c /
unnamed part_001) together with theorems settling the frozen claims.

Modelling conventions, used throughout:

* C pointers to plist nodes become indices (`Nat`) into an explicit heap,
  a `List PNode`; `NULL` becomes `none : Option Nat`.  `malloc` appends to
  the heap and can be made to fail through an explicit failure oracle
  (`Mem.failq`), which models out-of-memory.
* `free`d nodes are kept in the heap with a `freed` marker and their
  last-written fields; a later read of a freed node therefore returns the
  stale contents, exactly the benign use-after-free behaviour the parser
  relies on after `plist_dict_set` replaces the open key.
* Reads of memory the C code does not own (one byte past a parser chunk,
  never-written scanner-buffer cells) return an unconstrained byte `stale`
  that theorems quantify over; never-written buffer cells are `none` in
  `List (Option Nat)` and resolve to `stale` when read.
* A C dereference of a NULL pointer is modelled as an immediate return with
  the sentinel `ECRASH` and the `Mem.crashed` flag set (the real program
  would abort; the model stops mutating at that point).
* Out parameters (`plist_t **`) become extra returned values; an `int`
  errno result stays an `Int`.
-/

namespace Plist

/-- Linux errno values used by the sources. -/
def EPERM : Int := 1
/-- errno ENOENT. -/
def ENOENT : Int := 2
/-- errno EAGAIN. -/
def EAGAIN : Int := 11
/-- errno ENOMEM. -/
def ENOMEM : Int := 12
/-- errno EACCES. -/
def EACCES : Int := 13
/-- errno EINVAL. -/
def EINVAL : Int := 22
/-- errno ERANGE. -/
def ERANGE : Int := 34
/-- Model artifact: the C code would dereference a NULL pointer here. -/
def ECRASH : Int := -2
/-- Model artifact: recursion bound of the embedding exhausted. -/
def EFUEL : Int := -3

/-- C conversion from int to C99 bool: any nonzero value becomes true. -/
def cbool (e : Int) : Bool := e != 0

/-- ctype isblank in the C locale: space or horizontal tab. -/
def isblank (c : Nat) : Bool := c == 32 || c == 9

/-- ctype isdigit. -/
def isdigit (c : Nat) : Bool := 48 ≤ c && c ≤ 57

/-- ctype isspace in the C locale. -/
def isspace (c : Nat) : Bool := c == 32 || (9 ≤ c && c ≤ 13)

/-- ctype tolower for ASCII bytes. -/
def tolower (c : Nat) : Nat := if 65 ≤ c && c ≤ 90 then c + 32 else c

/-- Value of a hex digit character, as used by libc number conversion.
Lowercase letters a..f map to 10..15. -/
def digitVal (c : Nat) : Nat := if isdigit c then c - 48 else tolower c - 87

/-- Whether a byte is a valid digit for the given base (2 ≤ base ≤ 16). -/
def isBaseDigit (base : Nat) (c : Nat) : Bool :=
  (isdigit c || (97 ≤ tolower c && tolower c ≤ 102)) && digitVal c < base

/-- LLONG_MAX for the 64-bit long long used by strtoll. -/
def LLONG_MAX : Int := 2 ^ 63 - 1
/-- LLONG_MIN. -/
def LLONG_MIN : Int := -(2 ^ 63)

/-- Clamp to the long long range, modelling strtoll saturation on overflow. -/
def llclamp (v : Int) : Int :=
  if v > LLONG_MAX then LLONG_MAX else if v < LLONG_MIN then LLONG_MIN else v

/-- Accumulate a digit string in the given base. -/
def digitsVal (base : Nat) (ds : List Nat) : Int :=
  ds.foldl (fun acc c => acc * (base : Int) + (digitVal c : Int)) 0

/-- Model of libc strtoll with base 0 (base autodetection), returning the
converted value and the number of bytes consumed (endptr - nptr).  The byte
list stands for the memory starting at nptr; running off its end behaves
like hitting a non-digit byte.  Skips leading whitespace, handles an
optional sign, detects a 0x/0X hex prefix or a leading 0 octal prefix, and
saturates at the long long range. -/
def strtoll (s : List Nat) : Int × Nat :=
  let wsn := (s.takeWhile fun c => isspace c).length
  let s1 := s.drop wsn
  let sgninfo : Bool × Nat :=
    match s1 with
    | 45 :: _ => (true, 1)
    | 43 :: _ => (false, 1)
    | _ => (false, 0)
  let neg := sgninfo.1
  let s2 := s1.drop sgninfo.2
  let basepfx : Nat × Nat :=
    match s2 with
    | 48 :: 120 :: d :: _ => if isBaseDigit 16 d then (16, 2) else (8, 0)
    | 48 :: 88 :: d :: _ => if isBaseDigit 16 d then (16, 2) else (8, 0)
    | 48 :: _ => (8, 0)
    | _ => (10, 0)
  let base := basepfx.1
  let s3 := s2.drop basepfx.2
  let ds := s3.takeWhile (isBaseDigit base)
  if ds.length = 0 then (0, 0)
  else
    let v := digitsVal base ds
    (llclamp (if neg then -v else v), wsn + sgninfo.2 + basepfx.2 + ds.length)

/-- C conversion of an integer value to a 32-bit int (two's complement wrap),
as performed when a long long is passed for an int parameter. -/
def toCInt (v : Int) : Int := (v + 2 ^ 31) % 2 ^ 32 - 2 ^ 31

/-- Number of bytes a libc strtod call consumes from the given memory
(decimal-only subject: optional sign, digits with an optional point, and an
optional exponent).  The call sites only reach strtod with bytes drawn from
sign, digit, point and exponent characters, for which this is the exact
strtod subject; 0 means no conversion (endptr = nptr). -/
def strtodConsumed (s : List Nat) : Nat :=
  let wsn := (s.takeWhile fun c => isspace c).length
  let s1 := s.drop wsn
  let sgn : Nat := match s1 with
    | 45 :: _ => 1
    | 43 :: _ => 1
    | _ => 0
  let s2 := s1.drop sgn
  let ip := (s2.takeWhile fun c => isdigit c).length
  let s3 := s2.drop ip
  let fracinfo : Nat × List Nat :=
    match s3 with
    | 46 :: rest =>
      let fd := (rest.takeWhile fun c => isdigit c).length
      (fd + 1, rest.drop fd)
    | _ => (0, s3)
  let fp := fracinfo.1
  let s4 := fracinfo.2
  let mantDigits := ip + (fp - if fp = 0 then 0 else 1)
  if mantDigits = 0 then 0
  else
    let ex : Nat :=
      match s4 with
      | 101 :: rest =>
        let es : Nat := match rest with
          | 45 :: _ => 1
          | 43 :: _ => 1
          | _ => 0
        let ed := ((rest.drop es).takeWhile fun c => isdigit c).length
        if ed > 0 then 1 + es + ed else 0
      | 69 :: rest =>
        let es : Nat := match rest with
          | 45 :: _ => 1
          | 43 :: _ => 1
          | _ => 0
        let ed := ((rest.drop es).takeWhile fun c => isdigit c).length
        if ed > 0 then 1 + es + ed else 0
      | _ => 0
    wsn + sgn + ip + fp + ex

/-- Broken-down calendar time: the struct tm fields that the library reads
and stores (libc strptime also fills derived fields the library ignores). -/
structure CTm where
  tm_year : Int := 0
  tm_mon : Int := 0
  tm_mday : Int := 0
  tm_hour : Int := 0
  tm_min : Int := 0
  tm_sec : Int := 0
  tm_gmtoff : Int := 0
  deriving DecidableEq, Repr, Inhabited

/-- Read a nonempty digit run as a number, returning the rest. -/
def readDigits (s : List Nat) : Option (Nat × List Nat) :=
  let ds := s.takeWhile fun c => isdigit c
  if ds.length = 0 then none
  else some (ds.foldl (fun a c => a * 10 + (c - 48)) 0, s.drop ds.length)

/-- Expect one literal byte. -/
def expectByte (b : Nat) (s : List Nat) : Option (List Nat) :=
  match s with
  | c :: rest => if c = b then some rest else none
  | [] => none

/-- Read a sequence of numeric fields, each followed by the given literal
separator byte. -/
def readFields : List Nat → List Nat → Option (List Nat × List Nat)
  | [], s => some ([], s)
  | sep :: seps, s =>
    match readDigits s with
    | none => none
    | some (v, s1) =>
      match expectByte sep s1 with
      | none => none
      | some s2 =>
        match readFields seps s2 with
        | none => none
        | some (vs, rest) => some (v :: vs, rest)

/-- Model of the libc strptime call with the fixed format
%Y-%m-%d %H:%M:%S %z used by the date state: six numeric fields separated
by literal bytes, then a +HHMM or -HHMM timezone.  Returns none when the
conversion fails (strptime returning NULL). -/
def strptimeDate (s : List Nat) : Option CTm :=
  match readFields [45, 45, 32, 58, 58, 32] s with
  | some ([y, mo, d, hh, mi, ss], s6) =>
    match (match s6 with
           | 43 :: rest => some ((1 : Int), rest)
           | 45 :: rest => some ((-1 : Int), rest)
           | _ => none) with
    | none => none
    | some (tzsgn, s7) =>
      match s7 with
      | h1 :: h2 :: m1 :: m2 :: _ =>
        if isdigit h1 && isdigit h2 && isdigit m1 && isdigit m2 then
          some { tm_year := (y : Int) - 1900, tm_mon := (mo : Int) - 1,
                 tm_mday := (d : Int), tm_hour := (hh : Int),
                 tm_min := (mi : Int), tm_sec := (ss : Int),
                 tm_gmtoff := tzsgn *
                   (((h1 - 48) * 10 + (h2 - 48)) * 3600 +
                    ((m1 - 48) * 10 + (m2 - 48)) * 60 : Nat) }
        else none
      | _ => none
  | _ => none

/-- The plist element kinds from plist.h enum plist_elem_e. -/
inductive PElem where
  | PLIST_DICT
  | PLIST_KEY
  | PLIST_ARRAY
  | PLIST_DATA
  | PLIST_DATE
  | PLIST_STRING
  | PLIST_INTEGER
  | PLIST_REAL
  | PLIST_BOOLEAN
  | PLIST_UNKNOWN
  deriving DecidableEq, Repr, Inhabited

/-- A plist node: struct plist_s with the payload union flattened into
per-kind fields (the C union members only alias between the string payload
and the key name, which the in-place string-to-key conversion copies
explicitly).  pd_keys / pa_elems store child node indices in TAILQ order;
the real pr_raw field keeps the text strtod consumed, because no claim
depends on the numeric value of a double and IEEE arithmetic is outside the
embedding.  freed marks memory released by plist_free; the record keeps its
last-written fields so that later (benign use-after-free) reads see them. -/
structure PNode where
  p_elem : PElem := .PLIST_UNKNOWN
  p_parent : Option Nat := none
  pd_numkeys : Int := 0
  pd_keys : List Nat := []
  pk_name : List Nat := []
  pk_value : Option Nat := none
  pa_numelems : Int := 0
  pa_elems : List Nat := []
  pdata : List Nat := []
  pd_tm : CTm := {}
  ps_str : List Nat := []
  pi_int : Int := 0
  pr_raw : List Nat := []
  pb_bool : Bool := false
  freed : Bool := false
  deriving DecidableEq, Repr, Inhabited

/-- The modelled process memory: the node heap (ids are list positions), a
malloc failure oracle (head entry true makes the next allocation fail,
an empty queue never fails), and a flag recording that the C code would
have dereferenced NULL. -/
structure Mem where
  heap : List PNode := []
  failq : List Bool := []
  crashed : Bool := false
  deriving DecidableEq, Repr, Inhabited

/-- Read a node; ids outside the heap read as the all-default node. -/
def Mem.node (m : Mem) (i : Nat) : PNode := m.heap.getD i {}

/-- Overwrite a node in place. -/
def Mem.set (m : Mem) (i : Nat) (n : PNode) : Mem :=
  { m with heap := m.heap.set i n }

/-- Record that the C code dereferenced NULL here. -/
def Mem.crash (m : Mem) : Mem := { m with crashed := true }

/-- malloc of one node: consumes one oracle entry; on success the node id
is the old heap length. -/
def Mem.malloc (m : Mem) (n : PNode) : Option Nat × Mem :=
  match m.failq with
  | true :: rest => (none, { m with failq := rest })
  | false :: rest =>
    (some m.heap.length, { m with heap := m.heap ++ [n], failq := rest })
  | [] => (some m.heap.length, { m with heap := m.heap ++ [n] })

/-- The child ids a node owns, per kind (dict keys, key value, array
elements); mirrors the per-kind traversal in plist_free and plist_copy. -/
def childIds (x : PNode) : List Nat :=
  match x.p_elem with
  | .PLIST_DICT => x.pd_keys
  | .PLIST_KEY => x.pk_value.toList
  | .PLIST_ARRAY => x.pa_elems
  | _ => []

/-- TAILQ_NEXT of a node that sits on its parent container's list: the
entry is intrinsic in the C; the model recovers the successor from the
owning container, which coincides whenever the node is linked there (true
at every use below). -/
def tailqNextIn (l : List Nat) (x : Nat) : Option Nat :=
  match l.dropWhile (fun i => i != x) with
  | _ :: nxt :: _ => some nxt
  | _ => none

/-- TAILQ_NEXT via the parent pointer. -/
def tailqNext (m : Mem) (x : Nat) : Option Nat :=
  match (m.node x).p_parent with
  | some p =>
    match (m.node p).p_elem with
    | .PLIST_DICT => tailqNextIn (m.node p).pd_keys x
    | .PLIST_ARRAY => tailqNextIn (m.node p).pa_elems x
    | _ => none
  | none => none

/-- One worklist element of plist_free (part_002): the children this node
hands to the free list and the node with its child links and counts
cleared, per kind. -/
def plist_freeStep (xn : PNode) : List Nat × PNode :=
  match xn.p_elem with
  | .PLIST_DICT => (xn.pd_keys, { xn with pd_keys := [], pd_numkeys := 0 })
  | .PLIST_KEY => (xn.pk_value.toList, { xn with pk_value := none })
  | .PLIST_ARRAY => (xn.pa_elems, { xn with pa_elems := [], pa_numelems := 0 })
  | _ => ([], xn)

/-- Worklist phase of plist_free (part_002): pop the head, move its
children onto the tail of the list, clear the child links and counts of the
popped node, and mark it freed.  Fuel exhaustion (impossible on acyclic
heaps of this size) flags a crash. -/
def plist_freeLoop : Nat → Mem → List Nat → Mem
  | _, m, [] => m
  | 0, m, _ :: _ => m.crash
  | fuel + 1, m, x :: rest =>
    let step := plist_freeStep (m.node x)
    plist_freeLoop fuel (m.set x { step.2 with freed := true }) (rest ++ step.1)

/-- The parent-unlink step of plist_free (part_002): the parent node with
the child reference removed, per parent kind; none models the syslog
branch for an unexpected parent kind, which returns without freeing. -/
def plist_freeUnlink (pn : PNode) (x : Nat) : Option PNode :=
  match pn.p_elem with
  | .PLIST_DICT =>
    some { pn with pd_numkeys := pn.pd_numkeys - 1, pd_keys := pn.pd_keys.erase x }
  | .PLIST_ARRAY =>
    some { pn with pa_numelems := pn.pa_numelems - 1, pa_elems := pn.pa_elems.erase x }
  | .PLIST_KEY => some { pn with pk_value := none }
  | _ => none

/-- plist_free (part_002): unlink the node from its parent (updating the
parent's count and child list, or clearing the key's value slot), then
release the whole subtree iteratively.  An unexpected parent kind returns
without freeing, as the C syslog branch does.  Mem.set preserves the heap
length, so computing the worklist fuel before or after the unlink is the
same. -/
def plist_free (m : Mem) (plist : Option Nat) : Mem :=
  match plist with
  | none => m
  | some x =>
    match (m.node x).p_parent with
    | none => plist_freeLoop (m.heap.length + 1) m [x]
    | some p =>
      match plist_freeUnlink (m.node p) x with
      | none => m
      | some pn2 => plist_freeLoop (m.heap.length + 1) (m.set p pn2) [x]

/-- plist_dict_new (part_002). -/
def plist_dict_new (m : Mem) : Int × Option Nat × Mem :=
  match m.malloc { p_elem := .PLIST_DICT } with
  | (none, m) => (ENOMEM, none, m)
  | (some i, m) => (0, some i, m)

/-- plist_array_new (part_002). -/
def plist_array_new (m : Mem) : Int × Option Nat × Mem :=
  match m.malloc { p_elem := .PLIST_ARRAY } with
  | (none, m) => (ENOMEM, none, m)
  | (some i, m) => (0, some i, m)

/-- plist_dict_set (part_002): EINVAL on a null argument, EACCES when the
target is not a dict, EPERM when the value already has a parent; then the
new key is allocated, an existing key of the same name is freed, and the
key is appended owning the value. -/
def plist_dict_set (m : Mem) (dict : Option Nat) (name : Option (List Nat))
    (value : Option Nat) : Int × Mem :=
  match dict, name, value with
  | some d, some nm, some v =>
    if (m.node d).p_elem ≠ .PLIST_DICT then (EACCES, m)
    else if (m.node v).p_parent ≠ none then (EPERM, m)
    else
      match m.malloc { p_elem := .PLIST_KEY } with
      | (none, m) => (ENOMEM, m)
      | (some k, m) =>
        let m :=
          match (m.node d).pd_keys.find? (fun i => (m.node i).pk_name == nm) with
          | some t => plist_free m (some t)
          | none => m
        let m := m.set k { m.node k with p_elem := .PLIST_KEY, pk_name := nm,
                                         pk_value := some v }
        let m := m.set v { m.node v with p_parent := some k }
        let dn := m.node d
        let m := m.set d { dn with pd_numkeys := dn.pd_numkeys + 1,
                                   pd_keys := dn.pd_keys ++ [k] }
        let m := m.set k { m.node k with p_parent := some d }
        (0, m)
  | _, _, _ => (EINVAL, m)

/-- plist_dict_del (part_002): frees the named key if present; success
either way. -/
def plist_dict_del (m : Mem) (dict : Option Nat) (name : Option (List Nat)) :
    Int × Mem :=
  match dict, name with
  | some d, some nm =>
    if (m.node d).p_elem ≠ .PLIST_DICT then (EACCES, m)
    else
      match (m.node d).pd_keys.find? (fun i => (m.node i).pk_name == nm) with
      | some t => (0, plist_free m (some t))
      | none => (0, m)
  | _, _ => (EINVAL, m)

/-- plist_dict_haskey (part_002).  Note the wrong-kind branch executes
return EACCES through the bool return type, which C99 converts to true. -/
def plist_dict_haskey (m : Mem) (dict : Option Nat) (name : Option (List Nat)) :
    Bool :=
  match dict, name with
  | some d, some nm =>
    if (m.node d).p_elem ≠ .PLIST_DICT then cbool EACCES
    else (m.node d).pd_keys.any (fun i => (m.node i).pk_name == nm)
  | _, _ => false

/-- plist_array_append (part_002). -/
def plist_array_append (m : Mem) (array : Option Nat) (value : Option Nat) :
    Int × Mem :=
  match array, value with
  | some a, some v =>
    if (m.node a).p_elem ≠ .PLIST_ARRAY then (EACCES, m)
    else if (m.node v).p_parent ≠ none then (EPERM, m)
    else
      let an := m.node a
      let m := m.set a { an with pa_numelems := an.pa_numelems + 1,
                                 pa_elems := an.pa_elems ++ [v] }
      let m := m.set v { m.node v with p_parent := some a }
      (0, m)
  | _, _ => (EINVAL, m)

/-- plist_data_new (part_002): copies the byte buffer. -/
def plist_data_new (m : Mem) (buf : List Nat) : Int × Option Nat × Mem :=
  match m.malloc { p_elem := .PLIST_DATA, pdata := buf } with
  | (none, m) => (ENOMEM, none, m)
  | (some i, m) => (0, some i, m)

/-- plist_date_new (part_002): copies the broken-down time. -/
def plist_date_new (m : Mem) (tm : CTm) : Int × Option Nat × Mem :=
  match m.malloc { p_elem := .PLIST_DATE, pd_tm := tm } with
  | (none, m) => (ENOMEM, none, m)
  | (some i, m) => (0, some i, m)

/-- plist_string_new (part_002): copies the C string handed to it (the
caller has already read it out of memory with C-string semantics). -/
def plist_string_new (m : Mem) (s : List Nat) : Int × Option Nat × Mem :=
  match m.malloc { p_elem := .PLIST_STRING, ps_str := s } with
  | (none, m) => (ENOMEM, none, m)
  | (some i, m) => (0, some i, m)

/-- plist_integer_new (part_002): the num parameter has C type int, so the
node stores exactly the int value passed (callers converting from a wider
type wrap through toCInt at the call site). -/
def plist_integer_new (m : Mem) (num : Int) : Int × Option Nat × Mem :=
  match m.malloc { p_elem := .PLIST_INTEGER, pi_int := num } with
  | (none, m) => (ENOMEM, none, m)
  | (some i, m) => (0, some i, m)

/-- plist_real_new (part_002): stores the double; modelled by the consumed
source text, see PNode. -/
def plist_real_new (m : Mem) (raw : List Nat) : Int × Option Nat × Mem :=
  match m.malloc { p_elem := .PLIST_REAL, pr_raw := raw } with
  | (none, m) => (ENOMEM, none, m)
  | (some i, m) => (0, some i, m)

/-- plist_boolean_new (part_002). -/
def plist_boolean_new (m : Mem) (flag : Bool) : Int × Option Nat × Mem :=
  match m.malloc { p_elem := .PLIST_BOOLEAN, pb_bool := flag } with
  | (none, m) => (ENOMEM, none, m)
  | (some i, m) => (0, some i, m)

/-- Helper used by the copy of one element: a single malloc packaged with
the errno convention the constructors share. -/
def packMalloc (m : Mem) (n : PNode) : Int × Option Nat × Mem :=
  match m.malloc n with
  | (none, m) => (ENOMEM, none, m)
  | (some i, m) => (0, some i, m)

/-- The per-kind allocation of plist_copyelem (part_002): a fresh shallow
copy of the payload node. -/
def plist_copyelem_base (m : Mem) (stn : PNode) : Int × Option Nat × Mem :=
  match stn.p_elem with
  | .PLIST_DICT => packMalloc m { p_elem := .PLIST_DICT }
  | .PLIST_ARRAY => packMalloc m { p_elem := .PLIST_ARRAY }
  | .PLIST_DATA => packMalloc m { p_elem := .PLIST_DATA, pdata := stn.pdata }
  | .PLIST_DATE => packMalloc m { p_elem := .PLIST_DATE, pd_tm := stn.pd_tm }
  | .PLIST_STRING => packMalloc m { p_elem := .PLIST_STRING, ps_str := stn.ps_str }
  | .PLIST_INTEGER => packMalloc m { p_elem := .PLIST_INTEGER, pi_int := stn.pi_int }
  | .PLIST_REAL => packMalloc m { p_elem := .PLIST_REAL, pr_raw := stn.pr_raw }
  | .PLIST_BOOLEAN => packMalloc m { p_elem := .PLIST_BOOLEAN, pb_bool := stn.pb_bool }
  | .PLIST_KEY => (EACCES, none, m)
  | .PLIST_UNKNOWN => (EACCES, none, m)

/-- The key-wrapping tail of plist_copyelem (part_002): allocate the key
node owning the copied value; on allocation failure the copied value is
released before bailing. -/
def plist_copyelem_wrap (m : Mem) (sn : PNode) (dtmp : Nat) : Int × Option Nat × Mem :=
  match m.malloc { p_elem := .PLIST_KEY, pk_name := sn.pk_name,
                   pk_value := some dtmp } with
  | (none, m2) => (ENOMEM, none, plist_free m2 (some dtmp))
  | (some k, m2) => (0, some k, m2.set dtmp { m2.node dtmp with p_parent := some k })

/-- One element copy, part_002 plist_copyelem: a key copies its value first
and then wraps it in a freshly allocated key; a key whose value slot is
NULL makes the C dereference NULL. -/
def plist_copyelem (m : Mem) (s : Nat) : Int × Option Nat × Mem :=
  match (if (m.node s).p_elem = .PLIST_KEY then (m.node s).pk_value else some s) with
  | none => (ECRASH, none, m.crash)
  | some st =>
    match plist_copyelem_base m (m.node st) with
    | (e, none, m2) => (e, none, m2)
    | (_, some dtmp, m2) =>
      if (m.node s).p_elem = .PLIST_KEY then plist_copyelem_wrap m2 (m.node s) dtmp
      else (0, some dtmp, m2)

/-- The ascend loop at the end of each plist_copy iteration (part_002):
climbs source parents, moving the copy cursor in step, until a following
sibling is found or the source root is reached.  Returns the next source
node (none when the outer loop is finished) and the new copy cursor; a
none result models the C dereferencing a NULL copy cursor, and fuel
exhaustion (only possible on cyclic heaps) is folded into that outcome. -/
def plist_copyAscend : Nat → Mem → Nat → Nat → Option Nat →
    Option (Option Nat × Option Nat)
  | 0, _, _, _, _ => none
  | fuel + 1, m, src, pcur, pcopyprev =>
    if pcur = src ∨ (m.node pcur).p_parent = none then some (none, pcopyprev)
    else
      match (m.node pcur).p_parent with
      | none => some (none, pcopyprev)
      | some pnext =>
        match (m.node pnext).p_elem with
        | .PLIST_DICT =>
          match pcopyprev with
          | none => none
          | some cp => plist_copyAscend fuel m src pnext ((m.node cp).p_parent)
        | .PLIST_KEY =>
          match pcopyprev with
          | none => none
          | some cp =>
            match tailqNext m pnext with
            | some nx => some (some nx, (m.node cp).p_parent)
            | none => plist_copyAscend fuel m src pnext ((m.node cp).p_parent)
        | .PLIST_ARRAY =>
          match pcopyprev with
          | none => none
          | some cp =>
            match tailqNext m pcur with
            | some nx => some (some nx, (m.node cp).p_parent)
            | none => plist_copyAscend fuel m src pnext ((m.node cp).p_parent)
        | _ => some (none, pcopyprev)

/-- The dict arm of the link switch of plist_copy (part_002): parent the
copy to the dict and append it to its key list (used both for a dict
cursor and for a key cursor's parent dict). -/
def plist_insertDict (m : Mem) (pcopycur pp : Nat) : Mem :=
  let m2 := m.set pcopycur { m.node pcopycur with p_parent := some pp }
  m2.set pp { m2.node pp with pd_numkeys := (m2.node pp).pd_numkeys + 1,
                              pd_keys := (m2.node pp).pd_keys ++ [pcopycur] }

/-- The array arm of the link switch of plist_copy (part_002): parent the
copy to the array and append it to the element list. -/
def plist_insertArr (m : Mem) (pcopycur pp : Nat) : Mem :=
  let m2 := m.set pcopycur { m.node pcopycur with p_parent := some pp }
  m2.set pp { m2.node pp with pa_numelems := (m2.node pp).pa_numelems + 1,
                              pa_elems := (m2.node pp).pa_elems ++ [pcopycur] }

/-- The link-under-the-copy-cursor switch of plist_copy (part_002): insert
the fresh copy below the previous copy node per its kind; inserting under a
key goes to the key's parent dict, and a key without a parent makes the C
dereference NULL (returned as none). -/
def plist_copyInsert (m : Mem) (pcopycur : Nat) (pcopyprev : Option Nat) :
    Option Mem :=
  match pcopyprev with
  | none => some m
  | some pp =>
    match (m.node pp).p_elem with
    | .PLIST_DICT => some (plist_insertDict m pcopycur pp)
    | .PLIST_KEY =>
      match (m.node pp).p_parent with
      | none => none
      | some gp => some (plist_insertDict m pcopycur gp)
    | .PLIST_ARRAY => some (plist_insertArr m pcopycur pp)
    | _ => some m

/-- The key-descent adjustment of plist_copy (part_002): when the source
node is a key, both cursors step into the key values (a missing value makes
the C dereference NULL). -/
def plist_copyStepdown (m : Mem) (pcur pcopycur : Nat) : Option (Nat × Nat × Nat) :=
  if (m.node pcur).p_elem = .PLIST_KEY then
    match (m.node pcur).pk_value, (m.node pcopycur).pk_value with
    | some nv, some cv => some (nv, cv, nv)
    | _, _ => none
  else some (pcur, pcopycur, pcur)

/-- The descend-into-first-child step of plist_copy (part_002). -/
def plist_copyFirstChild (m : Mem) (pnext1 : Nat) : Option Nat :=
  match (m.node pnext1).p_elem with
  | .PLIST_DICT => (m.node pnext1).pd_keys.head?
  | .PLIST_ARRAY => (m.node pnext1).pa_elems.head?
  | _ => none

/-- Main loop of plist_copy (part_002): copy the current source node, link
the copy under the current copy cursor, then descend into the first child
or ascend to a following sibling.  A nonzero errno aborts the loop with the
partial dst for the caller's bail path. -/
def plist_copyLoop : Nat → Mem → Nat → Nat → Option Nat → Option Nat →
    Int × Option Nat × Mem
  | 0, m, _, _, dst, _ => (EFUEL, dst, m.crash)
  | fuel + 1, m, src, pcur, dst, pcopyprev =>
    match plist_copyelem m pcur with
    | (e, none, m2) => (e, dst, m2)
    | (_, some pcopycur, m2) =>
      match plist_copyInsert m2 pcopycur pcopyprev with
      | none => (ECRASH, some (dst.getD pcopycur), m2.crash)
      | some m3 =>
        match plist_copyStepdown m3 pcur pcopycur with
        | none => (ECRASH, some (dst.getD pcopycur), m3.crash)
        | some (pnext1, pcopyprev1, pcur1) =>
          match plist_copyFirstChild m3 pnext1 with
          | some c =>
            plist_copyLoop fuel m3 src c (some (dst.getD pcopycur)) (some pcopyprev1)
          | none =>
            match plist_copyAscend (m3.heap.length + 1) m3 src pcur1 (some pcopyprev1) with
            | none => (ECRASH, some (dst.getD pcopycur), m3.crash)
            | some (none, _) => (0, some (dst.getD pcopycur), m3)
            | some (some nxt, pcp) =>
              plist_copyLoop fuel m3 src nxt (some (dst.getD pcopycur)) pcp

/-- plist_copy (part_002): runs the loop and, on error, frees the partial
copy (the bail path). -/
def plist_copy (m : Mem) (src : Option Nat) : Int × Option Nat × Mem :=
  match src with
  | none => (EINVAL, none, m)
  | some s =>
    if (plist_copyLoop (m.heap.length + 8) m s s none none).1 = 0 then
      (0, (plist_copyLoop (m.heap.length + 8) m s s none none).2.1,
       (plist_copyLoop (m.heap.length + 8) m s s none none).2.2)
    else ((plist_copyLoop (m.heap.length + 8) m s s none none).1, none,
      plist_free (plist_copyLoop (m.heap.length + 8) m s s none none).2.2
        (plist_copyLoop (m.heap.length + 8) m s s none none).2.1)

/-- Staging phase of plist_dict_update for a dict source (part_002): deep
copy each key of the source onto a scratch list; a copy failure aborts with
the keys staged so far. -/
def plist_updateStage (m : Mem) : List Nat → List Nat → Int × List Nat × Mem
  | [], acc => (0, acc, m)
  | k :: rest, acc =>
    if (plist_copy m (some k)).1 = 0 then
      match (plist_copy m (some k)).2.1 with
      | some pc2 => plist_updateStage (plist_copy m (some k)).2.2 rest (acc ++ [pc2])
      | none => (ECRASH, acc, (plist_copy m (some k)).2.2.crash)
    else ((plist_copy m (some k)).1, acc, (plist_copy m (some k)).2.2)

/-- Staging phase of plist_dict_update for an array source (part_002):
every element must be a key; otherwise EPERM aborts the staging. -/
def plist_updateStageArr (m : Mem) : List Nat → List Nat → Int × List Nat × Mem
  | [], acc => (0, acc, m)
  | k :: rest, acc =>
    if (m.node k).p_elem ≠ .PLIST_KEY then (EPERM, acc, m)
    else
      if (plist_copy m (some k)).1 = 0 then
        match (plist_copy m (some k)).2.1 with
        | some pc2 => plist_updateStageArr (plist_copy m (some k)).2.2 rest (acc ++ [pc2])
        | none => (ECRASH, acc, (plist_copy m (some k)).2.2.crash)
      else ((plist_copy m (some k)).1, acc, (plist_copy m (some k)).2.2)

/-- Commit phase of plist_dict_update (part_002): for each staged copy,
delete any same-named key from the destination, then bump the count and
append the copy to the destination's key list.  Note the C does not assign
the copy's p_parent here. -/
def plist_updateCommit (m : Mem) (d : Nat) : List Nat → Mem
  | [] => m
  | pc :: rest =>
    let m := (plist_dict_del m (some d) (some (m.node pc).pk_name)).2
    let dn := m.node d
    let m := m.set d { dn with pd_numkeys := dn.pd_numkeys + 1,
                               pd_keys := dn.pd_keys ++ [pc] }
    plist_updateCommit m d rest

/-- Bail path of plist_dict_update (part_002): free every staged copy and
return the error. -/
def plist_updateBail (m : Mem) (staged : List Nat) (e : Int) : Int × Mem :=
  (e, staged.foldl (fun m t => plist_free m (some t)) m)

/-- plist_dict_update (part_002): stage deep copies of the contributed keys
(from a dict, a single key, or an array of keys), then commit them into the
destination; any staging failure frees the staged copies and leaves the
destination untouched. -/
def plist_dict_update (m : Mem) (dict other : Option Nat) : Int × Mem :=
  match dict, other with
  | some d, some o =>
    if (m.node d).p_elem ≠ .PLIST_DICT then (EACCES, m)
    else
      match (m.node o).p_elem with
      | .PLIST_DICT =>
        if (plist_updateStage m (m.node o).pd_keys []).1 = 0 then
          (0, plist_updateCommit (plist_updateStage m (m.node o).pd_keys []).2.2 d
                (plist_updateStage m (m.node o).pd_keys []).2.1)
        else
          plist_updateBail (plist_updateStage m (m.node o).pd_keys []).2.2
            (plist_updateStage m (m.node o).pd_keys []).2.1
            (plist_updateStage m (m.node o).pd_keys []).1
      | .PLIST_KEY =>
        if (plist_copy m (some o)).1 = 0 then
          match (plist_copy m (some o)).2.1 with
          | some pc2 => (0, plist_updateCommit (plist_copy m (some o)).2.2 d [pc2])
          | none => (ECRASH, (plist_copy m (some o)).2.2.crash)
        else plist_updateBail (plist_copy m (some o)).2.2 [] (plist_copy m (some o)).1
      | .PLIST_ARRAY =>
        if (plist_updateStageArr m (m.node o).pa_elems []).1 = 0 then
          (0, plist_updateCommit (plist_updateStageArr m (m.node o).pa_elems []).2.2 d
                (plist_updateStageArr m (m.node o).pa_elems []).2.1)
        else
          plist_updateBail (plist_updateStageArr m (m.node o).pa_elems []).2.2
            (plist_updateStageArr m (m.node o).pa_elems []).2.1
            (plist_updateStageArr m (m.node o).pa_elems []).1
      | _ => (EPERM, m)
  | _, _ => (EINVAL, m)

/-! The incremental text parser, unnamed part_001 (plist_txt.c). -/

/-- Parser states of part_001's state machine. -/
inductive TxtSt where
  | SCAN
  | DONE
  | ERROR
  | DATA
  | DATE
  | STRING
  | NUMBER
  | DOUBLE
  | TRUE
  | FALSE
  deriving DecidableEq, Repr, Inhabited

/-- The parser context struct plist_txt_s as part_001 uses it.  pt_buf is
the scanner buffer: a cell is none until first written, modelling the
indeterminate contents realloc hands out; pt_bufsz is the list length. -/
structure PlistTxt where
  pt_state : TxtSt := .SCAN
  pt_depth : Int := 0
  pt_top : Option Nat := none
  pt_cur : Option Nat := none
  pt_buf : List (Option Nat) := []
  pt_bufoff : Nat := 0
  pt_datacnt : Nat := 0
  pt_escape : Bool := false
  deriving DecidableEq, Repr, Inhabited

/-- plist_txt_new (part_001): zeroed context in the SCAN state (the heap
allocation of the context itself is not modelled; no claim involves it). -/
def plist_txt_new : PlistTxt := {}

/-- The buffer extension helper plist_txt_buf (part_001): grow the buffer
when fewer than extend bytes remain; realloc keeps existing cells and the
new cells are unwritten.  Allocation failure of the scanner buffer is not
modelled (no claim depends on it). -/
def plist_txt_buf (t : PlistTxt) (extend : Nat) : PlistTxt :=
  if t.pt_buf.length - t.pt_bufoff ≥ extend then t
  else { t with pt_buf := t.pt_buf ++ List.replicate extend none }

/-- Read one byte of the chunk; an index at or past the end returns the
unconstrained stale byte (the C reads whatever memory follows the buffer). -/
def chRead (stale : Nat) (chunk : List Nat) (i : Nat) : Nat := chunk.getD i stale

/-- Resolve the scanner buffer to bytes: unwritten cells read as stale. -/
def bufBytes (stale : Nat) (buf : List (Option Nat)) : List Nat :=
  buf.map fun c => c.getD stale

/-- Read the scanner buffer with C-string semantics: bytes up to the first
NUL. -/
def cstring (stale : Nat) (buf : List (Option Nat)) : List Nat :=
  (bufBytes stale buf).takeWhile fun c => c ≠ 0

/-- plist_txt_push (part_001): install a new open container.  At depth zero
it becomes the root; otherwise it is attached under the current frame (key
or array; the attach errno is ignored, as in the C). -/
def plist_txt_push (m : Mem) (t : PlistTxt) (value : Nat) : Mem × PlistTxt :=
  if t.pt_depth = 0 then
    (m, { t with pt_top := some value, pt_cur := some value,
                 pt_depth := t.pt_depth + 1, pt_state := .SCAN })
  else
    match t.pt_cur with
    | none => (plist_free m (some value), { t with pt_state := .ERROR })
    | some cur =>
      match (m.node cur).p_elem with
      | .PLIST_KEY =>
        let m := (plist_dict_set m (m.node cur).p_parent
                   (some (m.node cur).pk_name) (some value)).2
        (m, { t with pt_cur := some value, pt_depth := t.pt_depth + 1,
                     pt_state := .SCAN })
      | .PLIST_ARRAY =>
        let m := (plist_array_append m (some cur) (some value)).2
        (m, { t with pt_cur := some value, pt_depth := t.pt_depth + 1,
                     pt_state := .SCAN })
      | _ => (plist_free m (some value), { t with pt_state := .ERROR })

/-- plist_txt_next (part_001): attach a completed value.  At depth zero the
value becomes the root (replacing any previous root without freeing it).
Under a dict the value must be a string not naming an existing key and is
converted in place into the new open key; under a key or array it is
attached through the tree ops (errno ignored). -/
def plist_txt_next (m : Mem) (t : PlistTxt) (value : Nat) : Mem × PlistTxt :=
  if t.pt_depth = 0 then
    (m, { t with pt_top := some value, pt_cur := some value, pt_state := .SCAN })
  else
    match t.pt_cur with
    | none => (plist_free m (some value), { t with pt_state := .ERROR })
    | some cur =>
      match (m.node cur).p_elem with
      | .PLIST_DICT =>
        let vn := m.node value
        if vn.p_elem ≠ .PLIST_STRING then
          (plist_free m (some value), { t with pt_state := .ERROR })
        else if plist_dict_haskey m (some cur) (some vn.ps_str) = true then
          (plist_free m (some value), { t with pt_state := .ERROR })
        else
          let m := m.set value { vn with p_elem := .PLIST_KEY,
                                         pk_name := vn.ps_str, pk_value := none }
          let cn := m.node cur
          let m := m.set cur { cn with pd_numkeys := cn.pd_numkeys + 1,
                                       pd_keys := cn.pd_keys ++ [value] }
          let m := m.set value { m.node value with p_parent := some cur }
          (m, { t with pt_cur := some value, pt_depth := t.pt_depth + 1,
                       pt_state := .SCAN })
      | .PLIST_KEY =>
        let m := (plist_dict_set m (m.node cur).p_parent
                   (some (m.node cur).pk_name) (some value)).2
        (m, { t with pt_state := .SCAN })
      | .PLIST_ARRAY =>
        let m := (plist_array_append m (some cur) (some value)).2
        (m, { t with pt_state := .SCAN })
      | _ => (plist_free m (some value), { t with pt_state := .ERROR })

/-- plist_txt_pop (part_001): close the current frame, moving the cursor to
its parent. -/
def plist_txt_pop (m : Mem) (t : PlistTxt) : PlistTxt :=
  match t.pt_cur with
  | none => { t with pt_state := .ERROR }
  | some cur =>
    if t.pt_depth ≤ 0 then { t with pt_state := .ERROR }
    else { t with pt_depth := t.pt_depth - 1, pt_cur := (m.node cur).p_parent,
                  pt_state := .SCAN }

/-- The SCAN state's whitespace loop: skip blanks.  When the cursor reaches
the end of the chunk the C's third loop conjunct exits the loop whatever
byte lies beyond, so the bounds test is hoisted here.  The fuel argument
only bounds the recursion; callers pass more than the chunk length, which
the cursor cannot outrun. -/
def eatBlanks (chunk : List Nat) : Nat → Nat → Nat
  | 0, cp => cp
  | fuel + 1, cp =>
    if cp < chunk.length then
      if isblank (chunk.getD cp 0) ∧ chunk.getD cp 0 ≠ 0 then
        eatBlanks chunk fuel (cp + 1)
      else cp
    else cp

/-- Outcome of the quoted-string lookahead in the SCAN state. -/
inductive StrScan where
  | frag (ext : Nat)
  | close (i : Nat)
  deriving DecidableEq, Repr

/-- The SCAN state's quoted-string lookahead (part_001): walk from the byte
after the opening quote; a closing quote ends the token; a backslash or the
chunk end leaves a fragment of the given length for the STRING state. -/
def plist_scanString (chunk : List Nat) (cpc : Nat) : Nat → Nat → StrScan
  | 0, i => .frag (i - cpc)
  | fuel + 1, i =>
    if i < chunk.length then
      if chunk.getD i 0 = 92 then .frag (i - cpc)
      else if chunk.getD i 0 = 34 then .close i
      else plist_scanString chunk cpc fuel (i + 1)
    else .frag (i - cpc)

/-- Outcome of the number lookahead in the SCAN state. -/
inductive NumScan where
  | frag (ext : Nat)
  | toReal (ext : Nat)
  | stop (i : Nat)
  deriving DecidableEq, Repr

/-- The SCAN state's number lookahead (part_001): eat digits; a point or
exponent letter switches to the DOUBLE state; the chunk end leaves a
fragment; any other byte ends the digit run. -/
def plist_scanNumber (chunk : List Nat) (cp0 : Nat) : Nat → Nat → NumScan
  | 0, i => .frag (i - cp0)
  | fuel + 1, i =>
    if i < chunk.length then
      if isdigit (chunk.getD i 0) then plist_scanNumber chunk cp0 fuel (i + 1)
      else if chunk.getD i 0 = 46 ∨ chunk.getD i 0 = 101 ∨ chunk.getD i 0 = 69 then
        .toReal (i - cp0)
      else .stop i
    else .frag (i - cp0)

/-- Outcome of the DATA state's loop. -/
inductive DataLoopOut where
  | ret0 (t : PlistTxt)
  | date (t : PlistTxt) (cp : Nat)
  | closed (t : PlistTxt) (cp : Nat)
  deriving DecidableEq, Repr

/-- The DATA state's loop (part_001): a star at buffer offset zero switches
to the DATE state; blanks are skipped; a closing angle ends the token; hex
digits are packed two to a byte through the datacnt nibble counter.  The
isblank result is compared against true as the C does (taking the libc
result to be exactly 1 on blanks). -/
def plist_dataLoop (stale : Nat) (chunk : List Nat) :
    Nat → PlistTxt → Nat → DataLoopOut
  | 0, t, _ => .ret0 t
  | fuel + 1, t, cp =>
    if cp < chunk.length then
      let c := chRead stale chunk cp
      if t.pt_bufoff = 0 ∧ c = 42 then .date t (cp + 1)
      else
        let t := if t.pt_bufoff = t.pt_buf.length then plist_txt_buf t 32 else t
        if isblank c then plist_dataLoop stale chunk fuel t (cp + 1)
        else if c = 62 then .closed t (cp + 1)
        else if t.pt_datacnt % 2 = 0 then
          let t := { t with pt_buf := t.pt_buf.set t.pt_bufoff (some (digitVal c * 16 % 256)),
                            pt_datacnt := t.pt_datacnt + 1 }
          plist_dataLoop stale chunk fuel t (cp + 1)
        else
          let cell := (t.pt_buf.getD t.pt_bufoff none).getD stale
          let t := { t with pt_buf := t.pt_buf.set t.pt_bufoff (some (Nat.lor cell (digitVal c))),
                            pt_datacnt := t.pt_datacnt + 1, pt_bufoff := t.pt_bufoff + 1 }
          plist_dataLoop stale chunk fuel t (cp + 1)
    else .ret0 t

/-- Outcome of the DATE and STRING state loops. -/
inductive BufLoopOut where
  | ret0 (t : PlistTxt)
  | closed (t : PlistTxt) (cp : Nat)
  deriving DecidableEq, Repr

/-- The DATE state's loop (part_001): accumulate raw bytes until the
closing angle, which writes the NUL terminator. -/
def plist_dateLoop (stale : Nat) (chunk : List Nat) :
    Nat → PlistTxt → Nat → BufLoopOut
  | 0, t, _ => .ret0 t
  | fuel + 1, t, cp =>
    if cp < chunk.length then
      let t := if t.pt_bufoff = t.pt_buf.length then plist_txt_buf t 32 else t
      let c := chRead stale chunk cp
      if c = 62 then .closed { t with pt_buf := t.pt_buf.set t.pt_bufoff (some 0) } (cp + 1)
      else
        plist_dateLoop stale chunk fuel
          { t with pt_buf := t.pt_buf.set t.pt_bufoff (some c),
                   pt_bufoff := t.pt_bufoff + 1 } (cp + 1)
    else .ret0 t

/-- The STRING state's loop (part_001).  With the escape flag set, the
switch maps the escape characters; it has no default case, so any other
escaped byte leaves the current buffer cell unwritten while the offset
still advances.  A bare backslash sets the escape flag; a quote writes the
terminator and ends the token. -/
def plist_stringLoop (stale : Nat) (chunk : List Nat) :
    Nat → PlistTxt → Nat → BufLoopOut
  | 0, t, _ => .ret0 t
  | fuel + 1, t, cp =>
    if cp < chunk.length then
      let t := if t.pt_bufoff = t.pt_buf.length then plist_txt_buf t 32 else t
      let c := chRead stale chunk cp
      if t.pt_escape then
        let cell : Option Nat :=
          if c = 92 ∨ c = 47 ∨ c = 34 then some c
          else if c = 98 then some 8
          else if c = 116 then some 9
          else if c = 102 then some 12
          else if c = 110 then some 10
          else if c = 114 then some 13
          else t.pt_buf.getD t.pt_bufoff none
        plist_stringLoop stale chunk fuel
          { t with pt_buf := t.pt_buf.set t.pt_bufoff cell,
                   pt_bufoff := t.pt_bufoff + 1, pt_escape := false } (cp + 1)
      else if c = 92 then
        plist_stringLoop stale chunk fuel { t with pt_escape := true } (cp + 1)
      else if c = 34 then
        .closed { t with pt_buf := t.pt_buf.set t.pt_bufoff (some 0) } (cp + 1)
      else
        plist_stringLoop stale chunk fuel
          { t with pt_buf := t.pt_buf.set t.pt_bufoff (some c),
                   pt_bufoff := t.pt_bufoff + 1 } (cp + 1)
    else .ret0 t

/-- Outcome of the NUMBER and DOUBLE state loops. -/
inductive NumLoopOut where
  | ret0 (t : PlistTxt)
  | toReal (t : PlistTxt) (cp : Nat)
  | finish (t : PlistTxt) (cp : Nat)
  deriving DecidableEq, Repr

/-- The NUMBER state's loop (part_001): buffer digits (and a leading
minus); a point or exponent letter switches to the DOUBLE state without
consuming; any other byte writes the terminator and ends the token without
consuming. -/
def plist_numberLoop (stale : Nat) (chunk : List Nat) :
    Nat → PlistTxt → Nat → NumLoopOut
  | 0, t, _ => .ret0 t
  | fuel + 1, t, cp =>
    if cp < chunk.length then
      let t := if t.pt_bufoff = t.pt_buf.length then plist_txt_buf t 32 else t
      let c := chRead stale chunk cp
      if c = 46 ∨ c = 101 ∨ c = 69 then .toReal t cp
      else if isdigit c then
        plist_numberLoop stale chunk fuel
          { t with pt_buf := t.pt_buf.set t.pt_bufoff (some c),
                   pt_bufoff := t.pt_bufoff + 1 } (cp + 1)
      else if t.pt_bufoff = 0 ∧ c = 45 then
        plist_numberLoop stale chunk fuel
          { t with pt_buf := t.pt_buf.set t.pt_bufoff (some c),
                   pt_bufoff := t.pt_bufoff + 1 } (cp + 1)
      else .finish { t with pt_buf := t.pt_buf.set t.pt_bufoff (some 0) } cp
    else .ret0 t

/-- The DOUBLE state's loop (part_001): buffer the double alphabet; any
other byte writes the terminator and ends the token without consuming. -/
def plist_doubleLoop (stale : Nat) (chunk : List Nat) :
    Nat → PlistTxt → Nat → BufLoopOut
  | 0, t, _ => .ret0 t
  | fuel + 1, t, cp =>
    if cp < chunk.length then
      let t := if t.pt_bufoff = t.pt_buf.length then plist_txt_buf t 32 else t
      let c := chRead stale chunk cp
      if c = 46 ∨ c = 101 ∨ c = 69 ∨ c = 43 ∨ c = 45 ∨ isdigit c then
        plist_doubleLoop stale chunk fuel
          { t with pt_buf := t.pt_buf.set t.pt_bufoff (some c),
                   pt_bufoff := t.pt_bufoff + 1 } (cp + 1)
      else .closed { t with pt_buf := t.pt_buf.set t.pt_bufoff (some 0) } cp
    else .ret0 t

/-- The fill loop of the TRUE and FALSE states (part_001): copy raw chunk
bytes into the buffer until target bytes are buffered. -/
def plist_fillLoop (stale : Nat) (chunk : List Nat) (target : Nat) :
    Nat → PlistTxt → Nat → BufLoopOut
  | 0, t, _ => .ret0 t
  | fuel + 1, t, cp =>
    if t.pt_bufoff < target then
      if cp < chunk.length then
        plist_fillLoop stale chunk target fuel
          { t with pt_buf := t.pt_buf.set t.pt_bufoff (some (chRead stale chunk cp)),
                   pt_bufoff := t.pt_bufoff + 1 } (cp + 1)
      else .ret0 t
    else .closed t cp

/-- Read one buffer cell as a byte. -/
def bufCell (stale : Nat) (t : PlistTxt) (i : Nat) : Nat :=
  (t.pt_buf.getD i none).getD stale

/-- plist_format_new applied to the "%.*s" format, as the string fast path
does (part_001 line 396): a string node from at most cplen bytes of the
chunk, stopping at an embedded NUL exactly as the precision format does. -/
def plist_format_prec_new (m : Mem) (cplen : Nat) (src : List Nat) :
    Int × Option Nat × Mem :=
  match m.malloc { p_elem := .PLIST_STRING,
                   ps_str := (src.take cplen).takeWhile fun c => c ≠ 0 } with
  | (none, m) => (ENOMEM, none, m)
  | (some i, m) => (0, some i, m)

/-- The goto nextstate loop of plist_txt_parse (part_001), one transition
per fuel unit.  cp is the chunk cursor chunk.pc_cp as an index; every C
return maps to a returned triple of errno, memory and parser context. -/
def ptxt_parseStep (stale : Nat) (chunk : List Nat) :
    Nat → Mem → PlistTxt → Nat → Int × Mem × PlistTxt
  | 0, m, t, _ => (EFUEL, m, t)
  | fuel + 1, m, t, cp =>
    match t.pt_state with
    | .DONE => (0, m, t)
    | .ERROR => (EACCES, m, t)
    | .SCAN =>
      let cp := eatBlanks chunk (chunk.length + 1) cp
      if cp = chunk.length then (0, m, t)
      else
        let c := chRead stale chunk cp
        match c with
        | 123 =>
          match plist_dict_new m with
          | (0, some ptmp, m) =>
            let mt := plist_txt_push m t ptmp
            ptxt_parseStep stale chunk fuel mt.1 mt.2 (cp + 1)
          | (e, _, m) => (e, m, { t with pt_state := .ERROR })
        | 125 =>
          match t.pt_cur with
          | none => (EACCES, m, { t with pt_state := .ERROR })
          | some cur0 =>
            let t := if (m.node cur0).p_elem = .PLIST_KEY then plist_txt_pop m t else t
            match t.pt_cur with
            | none => (ECRASH, m.crash, t)
            | some cur1 =>
              if (m.node cur1).p_elem ≠ .PLIST_DICT then
                (EACCES, m, { t with pt_state := .ERROR })
              else ptxt_parseStep stale chunk fuel m (plist_txt_pop m t) (cp + 1)
        | 58 =>
          match t.pt_cur with
          | none => (EACCES, m, { t with pt_state := .ERROR })
          | some cur =>
            if (m.node cur).p_elem ≠ .PLIST_KEY then
              (EACCES, m, { t with pt_state := .ERROR })
            else ptxt_parseStep stale chunk fuel m t (cp + 1)
        | 59 =>
          match t.pt_cur with
          | none => (EACCES, m, { t with pt_state := .ERROR })
          | some cur =>
            if (m.node cur).p_elem ≠ .PLIST_KEY then
              (EACCES, m, { t with pt_state := .ERROR })
            else ptxt_parseStep stale chunk fuel m (plist_txt_pop m t) (cp + 1)
        | 40 =>
          match plist_array_new m with
          | (0, some ptmp, m) =>
            let mt := plist_txt_push m t ptmp
            ptxt_parseStep stale chunk fuel mt.1 mt.2 (cp + 1)
          | (e, _, m) => (e, m, { t with pt_state := .ERROR })
        | 41 =>
          match t.pt_cur with
          | none => (EACCES, m, { t with pt_state := .ERROR })
          | some cur =>
            if (m.node cur).p_elem ≠ .PLIST_ARRAY then
              (EACCES, m, { t with pt_state := .ERROR })
            else ptxt_parseStep stale chunk fuel m (plist_txt_pop m t) (cp + 1)
        | 44 =>
          match t.pt_cur with
          | none => (EACCES, m, { t with pt_state := .ERROR })
          | some cur =>
            if (m.node cur).p_elem ≠ .PLIST_ARRAY then
              (EACCES, m, { t with pt_state := .ERROR })
            else ptxt_parseStep stale chunk fuel m t (cp + 1)
        | 60 =>
          ptxt_parseStep stale chunk fuel m
            { t with pt_datacnt := 0, pt_bufoff := 0, pt_state := .DATA } (cp + 1)
        | 34 =>
          let cpc := cp + 1
          match plist_scanString chunk cpc (chunk.length + 1) cpc with
          | .frag ext =>
            let t := plist_txt_buf { t with pt_bufoff := 0 } ext
            ptxt_parseStep stale chunk fuel m { t with pt_state := .STRING } cpc
          | .close i =>
            match plist_format_prec_new m (i - cpc) (chunk.drop cpc) with
            | (0, some ptmp, m) =>
              let mt := plist_txt_next m t ptmp
              ptxt_parseStep stale chunk fuel mt.1 mt.2 (i + 1)
            | (e, _, m) => (e, m, { t with pt_state := .ERROR })
        | 0 =>
          if t.pt_top ≠ none ∧ t.pt_depth = 0 then (0, m, { t with pt_state := .DONE })
          else (EINVAL, m, { t with pt_state := .ERROR })
        | c =>
          if c = 45 ∨ isdigit c then
            let start := if c = 45 then cp + 1 else cp
            match plist_scanNumber chunk cp (chunk.length + 1) start with
            | .frag ext =>
              let t := plist_txt_buf { t with pt_bufoff := 0 } ext
              ptxt_parseStep stale chunk fuel m { t with pt_state := .NUMBER } cp
            | .toReal ext =>
              let t := plist_txt_buf { t with pt_bufoff := 0 } ext
              ptxt_parseStep stale chunk fuel m { t with pt_state := .DOUBLE } cp
            | .stop i =>
              let r := strtoll (chunk.drop cp)
              if r.2 ≠ i - cp then (EINVAL, m, { t with pt_state := .ERROR })
              else
                match plist_integer_new m (toCInt r.1) with
                | (0, some ptmp, m) =>
                  let mt := plist_txt_next m t ptmp
                  ptxt_parseStep stale chunk fuel mt.1 mt.2 i
                | (e, _, m) => (e, m, { t with pt_state := .ERROR })
          else if c = 84 ∨ c = 116 then
            if chunk.length - cp < 3 then
              let t := plist_txt_buf { t with pt_bufoff := 0 } 5
              ptxt_parseStep stale chunk fuel m { t with pt_state := .TRUE } cp
            else if tolower (chRead stale chunk (cp + 1)) ≠ 114 ∨
                    tolower (chRead stale chunk (cp + 2)) ≠ 117 ∨
                    tolower (chRead stale chunk (cp + 3)) ≠ 101 then
              (EINVAL, m, { t with pt_state := .ERROR })
            else
              match plist_boolean_new m true with
              | (0, some ptmp, m) =>
                let mt := plist_txt_next m t ptmp
                ptxt_parseStep stale chunk fuel mt.1 mt.2 (cp + 4)
              | (e, _, m) => (e, m, { t with pt_state := .ERROR })
          else if c = 70 ∨ c = 102 then
            if chunk.length - cp < 4 then
              let t := plist_txt_buf { t with pt_bufoff := 0 } 6
              ptxt_parseStep stale chunk fuel m { t with pt_state := .FALSE } cp
            else if tolower (chRead stale chunk (cp + 1)) ≠ 97 ∨
                    tolower (chRead stale chunk (cp + 2)) ≠ 108 ∨
                    tolower (chRead stale chunk (cp + 3)) ≠ 115 ∨
                    tolower (chRead stale chunk (cp + 4)) ≠ 101 then
              (EINVAL, m, { t with pt_state := .ERROR })
            else
              match plist_boolean_new m false with
              | (0, some ptmp, m) =>
                let mt := plist_txt_next m t ptmp
                ptxt_parseStep stale chunk fuel mt.1 mt.2 (cp + 5)
              | (e, _, m) => (e, m, { t with pt_state := .ERROR })
          else (EINVAL, m, { t with pt_state := .ERROR })
    | .DATA =>
      match plist_dataLoop stale chunk (chunk.length + 1) t cp with
      | .ret0 t => (0, m, t)
      | .date t cp => ptxt_parseStep stale chunk fuel m { t with pt_state := .DATE } cp
      | .closed t cp =>
        match plist_data_new m
            ((bufBytes stale t.pt_buf).take (t.pt_datacnt / 2 + t.pt_datacnt % 2)) with
        | (0, some ptmp, m) =>
          let mt := plist_txt_next m t ptmp
          ptxt_parseStep stale chunk fuel mt.1 { mt.2 with pt_state := .SCAN } cp
        | (e, _, m) => (e, m, { t with pt_state := .ERROR })
    | .DATE =>
      match plist_dateLoop stale chunk (chunk.length + 1) t cp with
      | .ret0 t => (0, m, t)
      | .closed t cp =>
        match strptimeDate (cstring stale t.pt_buf) with
        | none => (EINVAL, m, { t with pt_state := .ERROR })
        | some tm =>
          match plist_date_new m tm with
          | (0, some ptmp, m) =>
            let mt := plist_txt_next m t ptmp
            ptxt_parseStep stale chunk fuel mt.1 { mt.2 with pt_state := .SCAN } cp
          | (e, _, m) => (e, m, { t with pt_state := .ERROR })
    | .STRING =>
      match plist_stringLoop stale chunk (chunk.length + 1) t cp with
      | .ret0 t => (0, m, t)
      | .closed t cp =>
        match plist_string_new m (cstring stale t.pt_buf) with
        | (0, some ptmp, m) =>
          let mt := plist_txt_next m t ptmp
          ptxt_parseStep stale chunk fuel mt.1 { mt.2 with pt_state := .SCAN } cp
        | (e, _, m) => (e, m, { t with pt_state := .ERROR })
    | .NUMBER =>
      match plist_numberLoop stale chunk (chunk.length + 1) t cp with
      | .ret0 t => (0, m, t)
      | .toReal t cp => ptxt_parseStep stale chunk fuel m { t with pt_state := .DOUBLE } cp
      | .finish t cp =>
        let s := cstring stale t.pt_buf
        let r := strtoll s
        if r.2 ≠ s.length then (EINVAL, m, { t with pt_state := .ERROR })
        else
          match plist_integer_new m (toCInt r.1) with
          | (0, some ptmp, m) =>
            let mt := plist_txt_next m t ptmp
            ptxt_parseStep stale chunk fuel mt.1 { mt.2 with pt_state := .SCAN } cp
          | (e, _, m) => (e, m, { t with pt_state := .ERROR })
    | .DOUBLE =>
      match plist_doubleLoop stale chunk (chunk.length + 1) t cp with
      | .ret0 t => (0, m, t)
      | .closed t cp =>
        let s := cstring stale t.pt_buf
        if strtodConsumed s ≠ s.length then (EINVAL, m, { t with pt_state := .ERROR })
        else
          match plist_real_new m s with
          | (0, some ptmp, m) =>
            let mt := plist_txt_next m t ptmp
            ptxt_parseStep stale chunk fuel mt.1 { mt.2 with pt_state := .SCAN } cp
          | (e, _, m) => (e, m, { t with pt_state := .ERROR })
    | .TRUE =>
      match plist_fillLoop stale chunk 4 (chunk.length + 1) t cp with
      | .ret0 t => (0, m, t)
      | .closed t cp =>
        if tolower (bufCell stale t 0) ≠ 116 ∨ tolower (bufCell stale t 1) ≠ 114 ∨
           tolower (bufCell stale t 2) ≠ 117 ∨ tolower (bufCell stale t 3) ≠ 101 then
          (EINVAL, m, { t with pt_state := .ERROR })
        else
          match plist_boolean_new m true with
          | (0, some ptmp, m) =>
            let mt := plist_txt_next m t ptmp
            ptxt_parseStep stale chunk fuel mt.1 { mt.2 with pt_state := .SCAN } cp
          | (e, _, m) => (e, m, { t with pt_state := .ERROR })
    | .FALSE =>
      match plist_fillLoop stale chunk 5 (chunk.length + 1) t cp with
      | .ret0 t => (0, m, t)
      | .closed t cp =>
        if tolower (bufCell stale t 0) ≠ 102 ∨ tolower (bufCell stale t 1) ≠ 97 ∨
           tolower (bufCell stale t 2) ≠ 108 ∨ tolower (bufCell stale t 3) ≠ 115 ∨
           tolower (bufCell stale t 4) ≠ 101 then
          (EINVAL, m, { t with pt_state := .ERROR })
        else
          match plist_boolean_new m false with
          | (0, some ptmp, m) =>
            let mt := plist_txt_next m t ptmp
            ptxt_parseStep stale chunk fuel mt.1 { mt.2 with pt_state := .SCAN } cp
          | (e, _, m) => (e, m, { t with pt_state := .ERROR })

/-- plist_txt_parse (part_001): empty chunks are a no-op; otherwise the
state machine runs from the start of the chunk.  The fuel is ample: every
transition either consumes a chunk byte or is one of the boundedly many
byte-free state switches. -/
def plist_txt_parse (stale : Nat) (m : Mem) (t : PlistTxt) (chunk : List Nat) :
    Int × Mem × PlistTxt :=
  if chunk.length = 0 then (0, m, t)
  else ptxt_parseStep stale chunk (8 * chunk.length + 64) m t 0

/-- plist_txt_result (part_001): in DONE the owned root is handed out and
the context is reset to a fresh SCAN context; otherwise the partial tree is
released and ENOENT returned. -/
def plist_txt_result (m : Mem) (t : PlistTxt) : Int × Option Nat × Mem × PlistTxt :=
  if t.pt_state = .DONE then (0, t.pt_top, m, plist_txt_new)
  else (ENOENT, none, plist_free m t.pt_top, plist_txt_new)

/-! Concrete inputs used by the claim theorems (byte lists; ASCII noted). -/

/-- The four bytes of the text true. -/
def inputTrue : List Nat := [116, 114, 117, 101]

/-- The text true with its NUL terminator. -/
def inputTrue0 : List Nat := [116, 114, 117, 101, 0]

/-- The three bytes tru: a chunk that ends exactly three bytes after the t. -/
def inputTru : List Nat := [116, 114, 117]

/-- The bytes e then NUL: the rest of the tru / e partition of true. -/
def inputE0 : List Nat := [101, 0]

/-- The text false with its NUL terminator. -/
def inputFalse0 : List Nat := [102, 97, 108, 115, 101, 0]

/-- The decimal text 2147483648 (that is, 2 to the 31st) with its NUL. -/
def inputBig : List Nat := [50, 49, 52, 55, 52, 56, 51, 54, 52, 56, 0]

/-- The quoted string with an unknown escape, a backslash-z between a and
b, with its NUL: double-quote a backslash z b double-quote NUL. -/
def inputEsc : List Nat := [34, 97, 92, 122, 98, 34, 0]

/-- The duplicate-key document: open-brace, quoted a, colon, quoted x,
semicolon, quoted a again, colon, quoted y, semicolon, close-brace, NUL,
with single blanks between tokens. -/
def inputDup : List Nat :=
  [123, 32, 34, 97, 34, 32, 58, 32, 34, 120, 34, 32, 59, 32,
   34, 97, 34, 32, 58, 32, 34, 121, 34, 32, 59, 32, 125, 0]

/-- Fresh-parser parse of one chunk over empty memory with the given stale
byte. -/
def parse1 (stale : Nat) (chunk : List Nat) : Int × Mem × PlistTxt :=
  plist_txt_parse stale {} plist_txt_new chunk

/-- Continue a run with a further chunk. -/
def parseNext (stale : Nat) (r : Int × Mem × PlistTxt) (chunk : List Nat) :
    Int × Mem × PlistTxt :=
  plist_txt_parse stale r.2.1 r.2.2 chunk

/-- Take the result of a run. -/
def resultOf (r : Int × Mem × PlistTxt) : Int × Option Nat × Mem × PlistTxt :=
  plist_txt_result r.2.1 r.2.2

/-- The memory built for the dict-update parent claim: node 0 an empty
destination dict, node 1 a source dict, node 2 an integer one, and
plist_dict_set making node 3 the key named a of the source. -/
def c9mem : Mem :=
  (plist_dict_set
    (plist_integer_new (plist_dict_new (plist_dict_new {}).2.2).2.2 1).2.2
    (some 1) (some [97]) (some 2)).2

/-- The run of plist_dict_update for the parent claim: update dict 0 from
source dict 1. -/
def c9run : Int × Mem := plist_dict_update c9mem (some 0) (some 1)

/-- A memory for witnesses: node 0 a dict, node 1 an array, node 2 an
integer attached under node 3. -/
def wmem : Mem :=
  { heap := [{ p_elem := .PLIST_DICT }, { p_elem := .PLIST_ARRAY },
             { p_elem := .PLIST_INTEGER, p_parent := some 3 },
             { p_elem := .PLIST_KEY, pk_value := some 2 }] }

/-- A memory for the update-failure witness: dict 0 is the destination,
dict 1 holds one key (node 2) valued by integer 3.  The malloc oracle lets
the first allocation succeed and fails the second, so copying the staged
key dies in its key-wrapping allocation and plist_dict_update must bail. -/
def umem : Mem :=
  { heap := [{ p_elem := .PLIST_DICT },
             { p_elem := .PLIST_DICT, pd_numkeys := 1, pd_keys := [2] },
             { p_elem := .PLIST_KEY, p_parent := some 1, pk_name := [97],
               pk_value := some 3 },
             { p_elem := .PLIST_INTEGER, p_parent := some 2, pi_int := 7 }],
    failq := [false, true] }

/-! Heap-locality infrastructure used for the transactionality of
plist_dict_update: a failed update must leave every pre-existing heap
entry unchanged. -/

/-- Heap read used by the locality lemmas. -/
def hnode (l : List PNode) (i : Nat) : PNode := l.getD i {}

/-- Every heap entry below n is unchanged between two memories. -/
def keepsOld (n : Nat) (m m2 : Mem) : Prop :=
  ∀ i, i < n → m2.heap.get? i = m.heap.get? i

/-- All node references of a node point at or above n. -/
def nodeFresh (n : Nat) (x : PNode) : Prop :=
  (∀ c ∈ x.pd_keys, n ≤ c) ∧ (∀ c, x.pk_value = some c → n ≤ c) ∧
  (∀ c ∈ x.pa_elems, n ≤ c) ∧ (∀ p, x.p_parent = some p → n ≤ p)

/-- The heap extends past n and every node at or above n only references
nodes at or above n (the fresh region is closed). -/
def memOK (n : Nat) (m : Mem) : Prop :=
  n ≤ m.heap.length ∧ ∀ i, n ≤ i → nodeFresh n (m.node i)

/-! Theorems settling the claims. -/

/-- Claim C2, counterexample: a fresh parser fed the four bytes true (no
NUL) reaches the end of the chunk in the scanning state with a completed
root at depth zero, yet the parse leaves the parser in SCAN, not DONE, and
plist_txt_result then returns ENOENT instead of the root. -/
theorem c2_counterexample :
    (parse1 0 inputTrue).1 = 0 ∧
    (parse1 0 inputTrue).2.2.pt_state = TxtSt.SCAN ∧
    (parse1 0 inputTrue).2.2.pt_top = some 0 ∧
    (parse1 0 inputTrue).2.2.pt_depth = 0 ∧
    (parse1 0 inputTrue).2.2.pt_state ≠ TxtSt.DONE ∧
    (resultOf (parse1 0 inputTrue)).1 = ENOENT := by decide

/-- Claim C2, amended: the parser enters DONE only when it scans a NUL
byte at depth zero with a completed root; with the terminator included the
parse enters DONE and plist_txt_result hands out the Boolean true root. -/
theorem c2_amended :
    (parse1 0 inputTrue0).1 = 0 ∧
    (parse1 0 inputTrue0).2.2.pt_state = TxtSt.DONE ∧
    (resultOf (parse1 0 inputTrue0)).1 = 0 ∧
    (resultOf (parse1 0 inputTrue0)).2.1 = some 0 ∧
    ((resultOf (parse1 0 inputTrue0)).2.2.1.node 0).p_elem = PElem.PLIST_BOOLEAN ∧
    ((resultOf (parse1 0 inputTrue0)).2.2.1.node 0).pb_bool = true := by decide

/-- Claim C3, counterexample: with the Boolean true root complete at depth
zero, feeding the non-whitespace bytes of false succeeds (returns 0, not an
error) and silently replaces the root, so plist_txt_result afterwards
yields Boolean false. -/
theorem c3_counterexample :
    (parse1 0 inputTrue).2.2.pt_top = some 0 ∧
    (parse1 0 inputTrue).2.2.pt_depth = 0 ∧
    ((parse1 0 inputTrue).2.1.node 0).p_elem = PElem.PLIST_BOOLEAN ∧
    ((parse1 0 inputTrue).2.1.node 0).pb_bool = true ∧
    (parseNext 0 (parse1 0 inputTrue) inputFalse0).1 = 0 ∧
    (parseNext 0 (parse1 0 inputTrue) inputFalse0).2.2.pt_top = some 1 ∧
    (resultOf (parseNext 0 (parse1 0 inputTrue) inputFalse0)).1 = 0 ∧
    (resultOf (parseNext 0 (parse1 0 inputTrue) inputFalse0)).2.1 = some 1 ∧
    ((parseNext 0 (parse1 0 inputTrue) inputFalse0).2.1.node 1).p_elem
      = PElem.PLIST_BOOLEAN ∧
    ((parseNext 0 (parse1 0 inputTrue) inputFalse0).2.1.node 1).pb_bool = false := by
  decide

/-- Helper for the amended C3: in the DONE state plist_txt_parse returns
success for every chunk and changes neither the memory nor the parser. -/
theorem parse_done_returns_zero (stale : Nat) (m : Mem) (t : PlistTxt)
    (chunk : List Nat) (h : t.pt_state = TxtSt.DONE) :
    plist_txt_parse stale m t chunk = (0, m, t) := by
  unfold plist_txt_parse
  rcases chunk with _ | ⟨a, l⟩
  · rfl
  · have hk : 8 * (a :: l).length + 64 = (8 * (a :: l).length + 63) + 1 := by omega
    rw [if_neg (by simp), hk]
    unfold ptxt_parseStep
    rw [h]

/-- Claim C3, amended: input after a completed root is not rejected: in the
DONE state any further chunk returns success with no effect, and in the
SCAN state at depth zero a further complete value replaces the root (shown
at the Boolean inputs true then false). -/
theorem c3_amended (stale : Nat) (m : Mem) (t : PlistTxt) (chunk : List Nat)
    (h : t.pt_state = TxtSt.DONE) :
    plist_txt_parse stale m t chunk = (0, m, t) ∧
    (parseNext 0 (parse1 0 inputTrue) inputFalse0).1 = 0 ∧
    (parseNext 0 (parse1 0 inputTrue) inputFalse0).2.2.pt_top = some 1 ∧
    ((parseNext 0 (parse1 0 inputTrue) inputFalse0).2.1.node 1).pb_bool = false :=
  ⟨parse_done_returns_zero stale m t chunk h, by decide, by decide, by decide⟩

/-- Witness for the amended C3 at a concrete DONE context and chunk. -/
theorem c3_amended_witness :
    ({ pt_state := TxtSt.DONE } : PlistTxt).pt_state = TxtSt.DONE ∧
    plist_txt_parse 0 {} { pt_state := TxtSt.DONE } [120]
      = (0, {}, { pt_state := TxtSt.DONE }) :=
  ⟨rfl, (c3_amended 0 {} { pt_state := TxtSt.DONE } [120] rfl).1⟩

/-- Claim C4: the number path converts with the 64-bit strtoll, which
yields 2147483648 on the input text, but the Integer node stores the value
through the int-typed pi_int field, wrapping it to -2147483648. -/
theorem c4_truncation :
    (strtoll [50, 49, 52, 55, 52, 56, 51, 54, 52, 56]).1 = 2147483648 ∧
    (parse1 0 inputBig).1 = 0 ∧
    (resultOf (parse1 0 inputBig)).1 = 0 ∧
    ((resultOf (parse1 0 inputBig)).2.2.1.node 0).p_elem = PElem.PLIST_INTEGER ∧
    ((resultOf (parse1 0 inputBig)).2.2.1.node 0).pi_int = -2147483648 ∧
    ((resultOf (parse1 0 inputBig)).2.2.1.node 0).pi_int ≠ 2147483648 := by decide

/-- Claim C5: attaching a value that already has a parent is rejected with
EPERM by plist_dict_set and plist_array_append before any mutation: the
returned memory is exactly the input memory, so the dict, the array and
the value's original attachment are unchanged. -/
theorem c5_already_attached (m : Mem) (d a v w : Nat) (nm : List Nat) (p q : Nat)
    (hd : (m.node d).p_elem = PElem.PLIST_DICT)
    (hv : (m.node v).p_parent = some p)
    (ha : (m.node a).p_elem = PElem.PLIST_ARRAY)
    (hw : (m.node w).p_parent = some q) :
    plist_dict_set m (some d) (some nm) (some v) = (EPERM, m) ∧
    plist_array_append m (some a) (some w) = (EPERM, m) := by
  constructor
  · simp [plist_dict_set, hd, hv]
  · simp [plist_array_append, ha, hw]

/-- Witness for C5 on a concrete memory. -/
theorem c5_witness :
    (wmem.node 0).p_elem = PElem.PLIST_DICT ∧
    (wmem.node 2).p_parent = some 3 ∧
    (wmem.node 1).p_elem = PElem.PLIST_ARRAY ∧
    plist_dict_set wmem (some 0) (some [97]) (some 2) = (EPERM, wmem) ∧
    plist_array_append wmem (some 1) (some 2) = (EPERM, wmem) :=
  ⟨by decide, by decide, by decide,
   (c5_already_attached wmem 0 1 2 2 [97] 3 3 (by decide) (by decide)
     (by decide) (by decide)).1,
   (c5_already_attached wmem 0 1 2 2 [97] 3 3 (by decide) (by decide)
     (by decide) (by decide)).2⟩

/-- Claim C7, counterexample: the duplicate-key document drives the parser
into the sticky ERROR state, but the failing plist_txt_parse call returns
EACCES, not the EINVAL that the invalid parse-error kind denotes. -/
theorem c7_counterexample :
    (parse1 0 inputDup).1 = EACCES ∧
    EACCES ≠ EINVAL ∧
    (parse1 0 inputDup).2.2.pt_state = TxtSt.ERROR := by decide

/-- Claim C7, amended: a completed string naming an existing key of the
open dict puts the parser in the sticky ERROR state with the call returning
EACCES; further input keeps returning EACCES, and plist_txt_result releases
the partial tree (the dict root is freed) and returns ENOENT. -/
theorem c7_amended :
    (parse1 0 inputDup).1 = EACCES ∧
    (parse1 0 inputDup).2.2.pt_state = TxtSt.ERROR ∧
    (parseNext 0 (parse1 0 inputDup) [32]).1 = EACCES ∧
    (resultOf (parse1 0 inputDup)).1 = ENOENT ∧
    (resultOf (parse1 0 inputDup)).2.1 = none ∧
    ((resultOf (parse1 0 inputDup)).2.2.1.node 0).freed = true := by decide

/-- Claim C9: after a successful plist_dict_update the committed key sits
in the destination dict's key list but its p_parent is NULL, not the
destination dict: the commit loop never assigns it. -/
theorem c9_update_parent :
    c9run.1 = 0 ∧
    (c9run.2.node 0).p_elem = PElem.PLIST_DICT ∧
    (c9run.2.node 0).pd_keys = [5] ∧
    (c9run.2.node 0).pd_numkeys = 1 ∧
    (c9run.2.node 5).p_elem = PElem.PLIST_KEY ∧
    (c9run.2.node 5).pk_name = [97] ∧
    (c9run.2.node 5).p_parent = none ∧
    (c9run.2.node 5).p_parent ≠ some 0 := by decide

/-- Claim C10: on a non-null node of any kind other than dict,
plist_dict_haskey executes return EACCES through its bool result type,
which yields true; null arguments yield false. -/
theorem c10_haskey_wrongkind (m : Mem) (d : Nat) (nm : List Nat)
    (h : (m.node d).p_elem ≠ PElem.PLIST_DICT) :
    plist_dict_haskey m (some d) (some nm) = true ∧
    plist_dict_haskey m none (some nm) = false ∧
    plist_dict_haskey m (some d) none = false := by
  refine ⟨?_, rfl, rfl⟩
  simp [plist_dict_haskey, h, cbool, EACCES]

/-- Witness for C10 on the integer node of the witness memory. -/
theorem c10_witness :
    (wmem.node 2).p_elem ≠ PElem.PLIST_DICT ∧
    plist_dict_haskey wmem (some 2) (some [97]) = true :=
  ⟨by decide, (c10_haskey_wrongkind wmem 2 [97] (by decide)).1⟩

/-- Claim C1: the unchunked parse of true plus NUL completes producing the
Boolean true root, but splitting the same bytes as the chunks tru and e
plus NUL fails: on the three-byte chunk the inline comparison reads one
byte past the chunk (here the stale byte 0; any value other than the two
letters e and E behaves the same) and the parse returns EINVAL, enters the
sticky ERROR state, and the result is ENOENT instead of the tree. -/
theorem c1_chunking :
    (parse1 0 inputTrue0).2.2.pt_state = TxtSt.DONE ∧
    ((resultOf (parse1 0 inputTrue0)).2.2.1.node 0).pb_bool = true ∧
    (resultOf (parse1 0 inputTrue0)).1 = 0 ∧
    (parse1 0 inputTru).1 = EINVAL ∧
    (parse1 0 inputTru).2.2.pt_state = TxtSt.ERROR ∧
    (parseNext 0 (parse1 0 inputTru) inputE0).1 = EACCES ∧
    (resultOf (parseNext 0 (parse1 0 inputTru) inputE0)).1 = ENOENT := by decide

set_option maxHeartbeats 2000000 in
/-- Claim C6: inside a quoted string, an escaped byte outside the escape
table is not passed through: the switch has no default case, so the parser
consumes the byte but appends whatever the buffer cell already held (the
stale byte of never-written realloc memory).  On the input with the
escaped z, the resulting string is the stale byte between a and b (or just
a when the stale byte is NUL), never the claimed pass-through, for every
stale byte other than z itself. -/
theorem c6_escape (stale : Nat) (hz : stale ≠ 122) :
    (parse1 stale inputEsc).1 = 0 ∧
    ((resultOf (parse1 stale inputEsc)).2.2.1.node 0).p_elem = PElem.PLIST_STRING ∧
    ((resultOf (parse1 stale inputEsc)).2.2.1.node 0).ps_str
      = (if stale = 0 then [97] else [97, stale, 98]) ∧
    ((resultOf (parse1 stale inputEsc)).2.2.1.node 0).ps_str ≠ [97, 122, 98] := by
  have hrun : parse1 stale inputEsc =
      (0,
       { heap := [{ p_elem := .PLIST_STRING,
                    ps_str := cstring stale
                      ([some 97, none, some 98, some 0] ++ List.replicate 29 none) }] },
       { pt_state := .DONE, pt_top := some 0, pt_cur := some 0,
         pt_buf := [some 97, none, some 98, some 0] ++ List.replicate 29 none,
         pt_bufoff := 3 }) := rfl
  have hcs : cstring stale ([some 97, none, some 98, some 0] ++ List.replicate 29 none)
      = (if stale = 0 then [97] else [97, stale, 98]) := by
    by_cases h0 : stale = 0
    · subst h0; decide
    · rw [if_neg h0]
      simp [cstring, bufBytes, List.takeWhile, h0]
  refine ⟨?_, ?_, ?_, ?_⟩
  · rw [hrun]
  · rw [hrun]; rfl
  · rw [hrun]; exact hcs
  · rw [hrun]
    show cstring stale ([some 97, none, some 98, some 0] ++ List.replicate 29 none)
        ≠ [97, 122, 98]
    rw [hcs]
    by_cases h0 : stale = 0
    · simp [h0]
    · simp only [if_neg h0]
      intro hcontra
      exact hz (by injection hcontra with _ h2; injection h2)

/-- Witness for C6 at the stale byte 0. -/
theorem c6_escape_witness :
    (0 : Nat) ≠ 122 ∧
    ((resultOf (parse1 0 inputEsc)).2.2.1.node 0).ps_str ≠ [97, 122, 98] :=
  ⟨by decide, (c6_escape 0 (by decide)).2.2.2⟩

/-! Locality lemmas leading to the transactionality of plist_dict_update
(claim C8): every mutation a failing update performs happens at heap ids at
or above the original heap length, so all pre-existing entries survive. -/

/-- keepsOld is reflexive. -/
theorem keepsOld_refl (n : Nat) (m : Mem) : keepsOld n m m := fun _ _ => rfl

/-- keepsOld composes. -/
theorem keepsOld_trans {n : Nat} {m1 m2 m3 : Mem} (h1 : keepsOld n m1 m2)
    (h2 : keepsOld n m2 m3) : keepsOld n m1 m3 :=
  fun i hi => (h2 i hi).trans (h1 i hi)

/-- keepsOld transports node reads below n. -/
theorem node_eq_of_keepsOld {n : Nat} {m m2 : Mem} (h : keepsOld n m m2) {i : Nat}
    (hi : i < n) : m2.node i = m.node i := by
  show (m2.heap.get? i).getD {} = (m.heap.get? i).getD {}
  rw [h i hi]

/-- The all-default node references nothing. -/
theorem nodeFresh_default (n : Nat) : nodeFresh n ({} : PNode) :=
  ⟨fun c hc => absurd hc (List.not_mem_nil c),
   fun _c hc => Option.noConfusion hc,
   fun c hc => absurd hc (List.not_mem_nil c),
   fun _p hp => Option.noConfusion hp⟩

/-- A node with no child lists, no key value and no parent is fresh. -/
theorem nodeFresh_of_no_refs {n : Nat} {x : PNode} (h1 : x.pd_keys = [])
    (h2 : x.pk_value = none) (h3 : x.pa_elems = []) (h4 : x.p_parent = none) :
    nodeFresh n x :=
  ⟨fun c hc => absurd (h1 ▸ hc) (List.not_mem_nil c),
   fun _c hc => Option.noConfusion (h2 ▸ hc),
   fun c hc => absurd (h3 ▸ hc) (List.not_mem_nil c),
   fun _p hp => Option.noConfusion (h4 ▸ hp)⟩

/-- Taking n to be the heap length, any memory is memOK: there are no
nodes at or above the frontier. -/
theorem memOK_top (m : Mem) : memOK m.heap.length m := by
  refine ⟨le_refl _, fun i hi => ?_⟩
  have hnone : m.heap.get? i = none := List.get?_len_le hi
  have : m.node i = {} := by
    show (m.heap.get? i).getD {} = {}
    rw [hnone]
    rfl
  rw [this]
  exact nodeFresh_default _

/-- Flipping the crash flag preserves memOK. -/
theorem memOK_crash {n : Nat} {m : Mem} (h : memOK n m) : memOK n m.crash := h

/-- Flipping the crash flag preserves the heap. -/
theorem keepsOld_crash (n : Nat) (m : Mem) : keepsOld n m m.crash :=
  fun _ _ => rfl

/-- Writing a node at or above the frontier keeps every older entry. -/
theorem keepsOld_set {m : Mem} {i : Nat} {x : PNode} (n : Nat) (hi : n ≤ i) :
    keepsOld n m (m.set i x) := by
  intro j hj
  show (m.heap.set i x).get? j = m.heap.get? j
  exact List.get?_set_ne x m.heap (by omega)

/-- Writing a fresh node at or above the frontier preserves memOK. -/
theorem memOK_set {n : Nat} {m : Mem} {i : Nat} {x : PNode} (h : memOK n m)
    (_hi : n ≤ i) (hx : nodeFresh n x) : memOK n (m.set i x) := by
  refine ⟨?_, fun j hj => ?_⟩
  · show n ≤ (m.heap.set i x).length
    rw [List.length_set]
    exact h.1
  · by_cases hij : i = j
    · subst hij
      by_cases hlen : i < m.heap.length
      · have hx2 : (m.set i x).node i = x := by
          show ((m.heap.set i x).get? i).getD {} = x
          rw [List.get?_set_eq_of_lt x hlen]
          rfl
        rw [hx2]
        exact hx
      · have hx2 : (m.set i x).node i = m.node i := by
          show ((m.heap.set i x).get? i).getD {} = (m.heap.get? i).getD {}
          rw [List.get?_len_le (by rw [List.length_set]; omega),
              List.get?_len_le (by omega)]
        rw [hx2]
        exact h.2 i hj
    · have hx2 : (m.set i x).node j = m.node j := by
        show ((m.heap.set i x).get? j).getD {} = (m.heap.get? j).getD {}
        rw [List.get?_set_ne x m.heap hij]
      rw [hx2]
      exact h.2 j hj

/-- Reading an appended heap. -/
theorem hnode_append (l : List PNode) (x : PNode) (j : Nat) :
    hnode (l ++ [x]) j
      = if j < l.length then hnode l j else if j = l.length then x else {} := by
  by_cases h1 : j < l.length
  · rw [if_pos h1]
    show ((l ++ [x]).get? j).getD {} = (l.get? j).getD {}
    rw [List.get?_append h1]
  · rw [if_neg h1]
    by_cases h2 : j = l.length
    · subst h2
      rw [if_pos rfl]
      show ((l ++ [x]).get? l.length).getD {} = x
      rw [List.get?_append_right (le_refl _)]
      simp
    · rw [if_neg h2]
      show ((l ++ [x]).get? j).getD {} = ({} : PNode)
      rw [List.get?_len_le (by simp; omega)]
      rfl

/-- malloc of a fresh node: older entries survive, memOK is preserved, and
any returned id is at or above the frontier. -/
theorem malloc_keeps {n : Nat} {m : Mem} (h : memOK n m) (x : PNode)
    (hx : nodeFresh n x) :
    memOK n (m.malloc x).2 ∧ keepsOld n m (m.malloc x).2 ∧
    (∀ r, (m.malloc x).1 = some r → n ≤ r) := by
  have hl := h.1
  unfold Mem.malloc
  rcases hf : m.failq with _ | ⟨b, rest⟩
  · refine ⟨⟨?_, fun j hj => ?_⟩, fun i hi => ?_, fun r hr => ?_⟩
    · show n ≤ (m.heap ++ [x]).length
      simp
      omega
    · show nodeFresh n (hnode (m.heap ++ [x]) j)
      rw [hnode_append]
      by_cases h1 : j < m.heap.length
      · rw [if_pos h1]; exact h.2 j hj
      · rw [if_neg h1]
        by_cases h2 : j = m.heap.length
        · rw [if_pos h2]; exact hx
        · rw [if_neg h2]; exact nodeFresh_default n
    · show (m.heap ++ [x]).get? i = m.heap.get? i
      exact List.get?_append (by omega)
    · cases hr
      exact h.1
  · cases b
    · refine ⟨⟨?_, fun j hj => ?_⟩, fun i hi => ?_, fun r hr => ?_⟩
      · show n ≤ (m.heap ++ [x]).length
        simp
        omega
      · show nodeFresh n (hnode (m.heap ++ [x]) j)
        rw [hnode_append]
        by_cases h1 : j < m.heap.length
        · rw [if_pos h1]; exact h.2 j hj
        · rw [if_neg h1]
          by_cases h2 : j = m.heap.length
          · rw [if_pos h2]; exact hx
          · rw [if_neg h2]; exact nodeFresh_default n
      · show (m.heap ++ [x]).get? i = m.heap.get? i
        exact List.get?_append (by omega)
      · cases hr
        exact h.1
    · exact ⟨⟨h.1, h.2⟩, fun i hi => rfl, fun r hr => Option.noConfusion hr⟩

/-- The free worklist step of a fresh node hands out fresh children and a
fresh cleared node. -/
theorem freeStep_fresh {n : Nat} {xn : PNode} (h : nodeFresh n xn) :
    (∀ c ∈ (plist_freeStep xn).1, n ≤ c) ∧ nodeFresh n (plist_freeStep xn).2 := by
  obtain ⟨h1, h2, h3, h4⟩ := h
  cases hxe : xn.p_elem <;> simp only [plist_freeStep, hxe]
  · exact ⟨h1, fun c hc => absurd hc (List.not_mem_nil c), h2, h3, h4⟩
  · refine ⟨?_, h1, fun _c hc => Option.noConfusion hc, h3, h4⟩
    intro c hc
    cases hv : xn.pk_value with
    | none => rw [hv] at hc; exact absurd hc (List.not_mem_nil c)
    | some a =>
      rw [hv] at hc
      have : c = a := by simpa using hc
      exact this ▸ h2 a hv
  · exact ⟨h3, h1, h2, fun c hc => absurd hc (List.not_mem_nil c), h4⟩
  · exact ⟨fun c hc => absurd hc (List.not_mem_nil c), h1, h2, h3, h4⟩
  · exact ⟨fun c hc => absurd hc (List.not_mem_nil c), h1, h2, h3, h4⟩
  · exact ⟨fun c hc => absurd hc (List.not_mem_nil c), h1, h2, h3, h4⟩
  · exact ⟨fun c hc => absurd hc (List.not_mem_nil c), h1, h2, h3, h4⟩
  · exact ⟨fun c hc => absurd hc (List.not_mem_nil c), h1, h2, h3, h4⟩
  · exact ⟨fun c hc => absurd hc (List.not_mem_nil c), h1, h2, h3, h4⟩
  · exact ⟨fun c hc => absurd hc (List.not_mem_nil c), h1, h2, h3, h4⟩

/-- The free worklist only mutates at or above the frontier when every
queued id is at or above it. -/
theorem freeLoop_keeps {n : Nat} : ∀ (fuel : Nat) (m : Mem) (work : List Nat),
    memOK n m → (∀ w ∈ work, n ≤ w) →
    memOK n (plist_freeLoop fuel m work) ∧
    keepsOld n m (plist_freeLoop fuel m work) := by
  intro fuel
  induction fuel with
  | zero =>
    intro m work hm hw
    cases work with
    | nil => exact ⟨hm, keepsOld_refl n m⟩
    | cons x rest => exact ⟨memOK_crash hm, keepsOld_crash n m⟩
  | succ fuel ih =>
    intro m work hm hw
    cases work with
    | nil => exact ⟨hm, keepsOld_refl n m⟩
    | cons x rest =>
      have hx : n ≤ x := hw x (List.mem_cons_self x rest)
      have hst := freeStep_fresh (n := n) (hm.2 x hx)
      have hfr2 : nodeFresh n { (plist_freeStep (m.node x)).2 with freed := true } :=
        hst.2
      have h1 := memOK_set hm hx hfr2
      have h2 := keepsOld_set (m := m) (i := x)
          (x := { (plist_freeStep (m.node x)).2 with freed := true }) n hx
      have hwork : ∀ w ∈ rest ++ (plist_freeStep (m.node x)).1, n ≤ w := by
        intro w hw2
        rcases List.mem_append.mp hw2 with hcase | hcase
        · exact hw w (List.mem_cons_of_mem x hcase)
        · exact hst.1 w hcase
      have h3 := ih (m.set x { (plist_freeStep (m.node x)).2 with freed := true })
          (rest ++ (plist_freeStep (m.node x)).1) h1 hwork
      exact ⟨h3.1, keepsOld_trans h2 h3.2⟩

/-- The unlink step preserves freshness: the unlinked parent only drops a
child reference. -/
theorem freeUnlink_fresh {n : Nat} {pn : PNode} (h : nodeFresh n pn) (x : Nat)
    (pn2 : PNode) (he : plist_freeUnlink pn x = some pn2) : nodeFresh n pn2 := by
  obtain ⟨h1, h2, h3, h4⟩ := h
  unfold plist_freeUnlink at he
  cases hxe : pn.p_elem <;> rw [hxe] at he <;>
    first
    | exact Option.noConfusion he
    | (cases he
       first
       | exact ⟨fun c hc => h1 c (List.mem_of_mem_erase hc), h2, h3, h4⟩
       | exact ⟨h1, fun _c hc => Option.noConfusion hc, h3, h4⟩
       | exact ⟨h1, h2, fun c hc => h3 c (List.mem_of_mem_erase hc), h4⟩)

/-- plist_free of a node at or above the frontier only mutates at or above
it: the parent unlink targets the node's parent, itself fresh, and the
worklist stays fresh. -/
theorem free_keeps {n : Nat} {m : Mem} (hm : memOK n m) (x : Option Nat)
    (hx : ∀ v, x = some v → n ≤ v) :
    memOK n (plist_free m x) ∧ keepsOld n m (plist_free m x) := by
  cases x with
  | none => exact ⟨hm, keepsOld_refl n m⟩
  | some v =>
    have hv : n ≤ v := hx v rfl
    have hfr := hm.2 v hv
    have hwv : ∀ w ∈ [v], n ≤ w := by intro w hw; simp at hw; omega
    simp only [plist_free]
    cases hp : (m.node v).p_parent with
    | none =>
      exact freeLoop_keeps _ m [v] hm hwv
    | some p =>
      show memOK n (match plist_freeUnlink (m.node p) v with
            | none => m
            | some pn2 => plist_freeLoop (m.heap.length + 1) (m.set p pn2) [v]) ∧
          keepsOld n m (match plist_freeUnlink (m.node p) v with
            | none => m
            | some pn2 => plist_freeLoop (m.heap.length + 1) (m.set p pn2) [v])
      have hpn : n ≤ p := hfr.2.2.2 p hp
      cases hu : plist_freeUnlink (m.node p) v with
      | none => exact ⟨hm, keepsOld_refl n m⟩
      | some pn2 =>
        have hfr2 : nodeFresh n pn2 := freeUnlink_fresh (hm.2 p hpn) v pn2 hu
        have h1 := memOK_set hm hpn hfr2
        have h2 := keepsOld_set (m := m) (i := p) (x := pn2) n hpn
        exact ⟨(freeLoop_keeps _ _ [v] h1 hwv).1,
               keepsOld_trans h2 (freeLoop_keeps _ _ [v] h1 hwv).2⟩

/-- packMalloc of a fresh node preserves the frontier invariants. -/
theorem packMalloc_keeps {n : Nat} {m : Mem} (h : memOK n m) {x : PNode}
    (hx : nodeFresh n x) :
    memOK n (packMalloc m x).2.2 ∧ keepsOld n m (packMalloc m x).2.2 ∧
    (∀ r, (packMalloc m x).2.1 = some r → n ≤ r) := by
  have hmal := malloc_keeps h x hx
  unfold packMalloc
  cases hc : m.malloc x with
  | mk o m2 =>
    rw [hc] at hmal
    cases o with
    | none => exact ⟨hmal.1, hmal.2.1, fun r hr => Option.noConfusion hr⟩
    | some i =>
      exact ⟨hmal.1, hmal.2.1, fun r hr => by cases hr; exact hmal.2.2 i rfl⟩

/-- The per-kind allocation of a copy preserves the frontier invariants. -/
theorem copyelemBase_keeps {n : Nat} {m : Mem} (h : memOK n m) (stn : PNode) :
    memOK n (plist_copyelem_base m stn).2.2 ∧
    keepsOld n m (plist_copyelem_base m stn).2.2 ∧
    (∀ r, (plist_copyelem_base m stn).2.1 = some r → n ≤ r) := by
  unfold plist_copyelem_base
  cases hxe : stn.p_elem
  case PLIST_KEY => exact ⟨h, keepsOld_refl n m, fun r hr => Option.noConfusion hr⟩
  case PLIST_UNKNOWN => exact ⟨h, keepsOld_refl n m, fun r hr => Option.noConfusion hr⟩
  all_goals exact packMalloc_keeps h (nodeFresh_of_no_refs rfl rfl rfl rfl)
/-- The key-wrapping tail of a copy preserves the frontier invariants. -/
theorem copyelemWrap_keeps {n : Nat} {m : Mem} (h : memOK n m) (sn : PNode)
    (dtmp : Nat) (hd : n ≤ dtmp) :
    memOK n (plist_copyelem_wrap m sn dtmp).2.2 ∧
    keepsOld n m (plist_copyelem_wrap m sn dtmp).2.2 ∧
    (∀ r, (plist_copyelem_wrap m sn dtmp).2.1 = some r → n ≤ r) := by
  have hkey : nodeFresh n
      ({ p_elem := .PLIST_KEY, pk_name := sn.pk_name, pk_value := some dtmp } : PNode) :=
    ⟨fun c hc => absurd hc (List.not_mem_nil c),
     fun c hc => by cases hc; omega,
     fun c hc => absurd hc (List.not_mem_nil c),
     fun _p hp => Option.noConfusion hp⟩
  have hmal := malloc_keeps h _ hkey
  unfold plist_copyelem_wrap
  split
  · rename_i m2 heq
    rw [heq] at hmal
    have hf := free_keeps hmal.1 (some dtmp) (fun v hv => by cases hv; omega)
    exact ⟨hf.1, keepsOld_trans hmal.2.1 hf.2, fun r hr => Option.noConfusion hr⟩
  · rename_i k m2 heq
    rw [heq] at hmal
    have hk : n ≤ k := hmal.2.2 k rfl
    have hdf := hmal.1.2 dtmp hd
    have hfr2 : nodeFresh n { m2.node dtmp with p_parent := some k } :=
      ⟨hdf.1, hdf.2.1, hdf.2.2.1, fun p hp => by cases hp; omega⟩
    exact ⟨memOK_set hmal.1 hd hfr2,
           keepsOld_trans hmal.2.1 (keepsOld_set n hd),
           fun r hr => by cases hr; omega⟩

/-- One element copy preserves the frontier invariants and returns a fresh
id on success. -/
theorem copyelem_keeps {n : Nat} {m : Mem} (h : memOK n m) (s : Nat) :
    memOK n (plist_copyelem m s).2.2 ∧ keepsOld n m (plist_copyelem m s).2.2 ∧
    (∀ r, (plist_copyelem m s).2.1 = some r → n ≤ r) := by
  unfold plist_copyelem
  by_cases hk : (m.node s).p_elem = PElem.PLIST_KEY
  · simp only [if_pos hk]
    split
    · exact ⟨memOK_crash h, keepsOld_crash n m, fun r hr => Option.noConfusion hr⟩
    · rename_i st hstv
      have hb := copyelemBase_keeps h (m.node st)
      split
      · rename_i e m2 heq
        rw [heq] at hb
        exact ⟨hb.1, hb.2.1, fun r hr => Option.noConfusion hr⟩
      · rename_i fst dtmp m2 heq
        rw [heq] at hb
        have hd : n ≤ dtmp := hb.2.2 dtmp rfl
        have hw := copyelemWrap_keeps hb.1 (m.node s) dtmp hd
        exact ⟨hw.1, keepsOld_trans hb.2.1 hw.2.1, hw.2.2⟩
  · simp only [if_neg hk]
    have hb := copyelemBase_keeps h (m.node s)
    show memOK n (match plist_copyelem_base m (m.node s) with
        | (e, none, m2) => (e, none, m2)
        | (_, some dtmp, m2) => (0, some dtmp, m2)).2.2 ∧
      keepsOld n m (match plist_copyelem_base m (m.node s) with
        | (e, none, m2) => (e, none, m2)
        | (_, some dtmp, m2) => (0, some dtmp, m2)).2.2 ∧
      (∀ r, (match plist_copyelem_base m (m.node s) with
        | (e, none, m2) => (e, none, m2)
        | (_, some dtmp, m2) => (0, some dtmp, m2)).2.1 = some r → n ≤ r)
    split
    · rename_i e m2 heq
      rw [heq] at hb
      exact ⟨hb.1, hb.2.1, fun r hr => Option.noConfusion hr⟩
    · rename_i fst dtmp m2 heq
      rw [heq] at hb
      have hd : n ≤ dtmp := hb.2.2 dtmp rfl
      exact ⟨hb.1, hb.2.1, fun r hr => by cases hr; omega⟩

/-- The ascend loop never moves the copy cursor below the frontier. -/
theorem ascend_prev {n : Nat} {m : Mem} (h : memOK n m) :
    ∀ (fuel : Nat) (src pcur : Nat) (pcp : Option Nat),
    (∀ v, pcp = some v → n ≤ v) →
    ∀ out, plist_copyAscend fuel m src pcur pcp = some out →
    (∀ v, out.2 = some v → n ≤ v) := by
  intro fuel
  induction fuel with
  | zero =>
    intro src pcur pcp hpcp out hout
    exact Option.noConfusion hout
  | succ fuel ih =>
    intro src pcur pcp hpcp out hout
    unfold plist_copyAscend at hout
    split at hout
    · cases hout
      exact hpcp
    · split at hout
      · cases hout
        exact hpcp
      · rename_i pnext hp
        split at hout
        · split at hout
          · exact Option.noConfusion hout
          · rename_i cp
            exact ih src pnext ((m.node cp).p_parent)
              (fun v hv => (h.2 cp (hpcp cp rfl)).2.2.2 v hv) out hout
        · split at hout
          · exact Option.noConfusion hout
          · rename_i cp
            split at hout
            · cases hout
              exact fun v hv => (h.2 cp (hpcp cp rfl)).2.2.2 v hv
            · exact ih src pnext ((m.node cp).p_parent)
                (fun v hv => (h.2 cp (hpcp cp rfl)).2.2.2 v hv) out hout
        · split at hout
          · exact Option.noConfusion hout
          · rename_i cp
            split at hout
            · cases hout
              exact fun v hv => (h.2 cp (hpcp cp rfl)).2.2.2 v hv
            · exact ih src pnext ((m.node cp).p_parent)
                (fun v hv => (h.2 cp (hpcp cp rfl)).2.2.2 v hv) out hout
        · cases hout
          exact hpcp

/-- Linking a copy under a dict preserves the frontier invariants. -/
theorem insertDict_keeps {n : Nat} {m : Mem} (h : memOK n m) {pc pp : Nat}
    (hc : n ≤ pc) (hp : n ≤ pp) :
    memOK n (plist_insertDict m pc pp) ∧ keepsOld n m (plist_insertDict m pc pp) := by
  have hcf := h.2 pc hc
  have hs1 : nodeFresh n { m.node pc with p_parent := some pp } :=
    ⟨hcf.1, hcf.2.1, hcf.2.2.1, fun p hp2 => by cases hp2; omega⟩
  have hA := memOK_set h hc hs1
  have hpf := hA.2 pp hp
  have hs2 : nodeFresh n
      { (m.set pc { m.node pc with p_parent := some pp }).node pp with
        pd_numkeys := ((m.set pc { m.node pc with
          p_parent := some pp }).node pp).pd_numkeys + 1,
        pd_keys := ((m.set pc { m.node pc with
          p_parent := some pp }).node pp).pd_keys ++ [pc] } := by
    refine ⟨?_, hpf.2.1, hpf.2.2.1, hpf.2.2.2⟩
    intro c hcm
    rcases List.mem_append.mp hcm with hcase | hcase
    · exact hpf.1 c hcase
    · have hcc : c = pc := by simpa using hcase
      omega
  exact ⟨memOK_set hA hp hs2,
         keepsOld_trans (keepsOld_set n hc) (keepsOld_set n hp)⟩

/-- Linking a copy under an array preserves the frontier invariants. -/
theorem insertArr_keeps {n : Nat} {m : Mem} (h : memOK n m) {pc pp : Nat}
    (hc : n ≤ pc) (hp : n ≤ pp) :
    memOK n (plist_insertArr m pc pp) ∧ keepsOld n m (plist_insertArr m pc pp) := by
  have hcf := h.2 pc hc
  have hs1 : nodeFresh n { m.node pc with p_parent := some pp } :=
    ⟨hcf.1, hcf.2.1, hcf.2.2.1, fun p hp2 => by cases hp2; omega⟩
  have hA := memOK_set h hc hs1
  have hpf := hA.2 pp hp
  have hs2 : nodeFresh n
      { (m.set pc { m.node pc with p_parent := some pp }).node pp with
        pa_numelems := ((m.set pc { m.node pc with
          p_parent := some pp }).node pp).pa_numelems + 1,
        pa_elems := ((m.set pc { m.node pc with
          p_parent := some pp }).node pp).pa_elems ++ [pc] } := by
    refine ⟨hpf.1, hpf.2.1, ?_, hpf.2.2.2⟩
    intro c hcm
    rcases List.mem_append.mp hcm with hcase | hcase
    · exact hpf.2.2.1 c hcase
    · have hcc : c = pc := by simpa using hcase
      omega
  exact ⟨memOK_set hA hp hs2,
         keepsOld_trans (keepsOld_set n hc) (keepsOld_set n hp)⟩

/-- The insert switch preserves the frontier invariants. -/
theorem copyInsert_keeps {n : Nat} {m : Mem} (h : memOK n m) (pcopycur : Nat)
    (hc : n ≤ pcopycur) (prev : Option Nat)
    (hprev : ∀ v, prev = some v → n ≤ v) :
    ∀ m2, plist_copyInsert m pcopycur prev = some m2 →
      memOK n m2 ∧ keepsOld n m m2 := by
  intro m2 he
  unfold plist_copyInsert at he
  split at he
  · cases he
    exact ⟨h, keepsOld_refl n m⟩
  · rename_i pp
    have hppn : n ≤ pp := hprev pp rfl
    split at he
    · cases he
      exact insertDict_keeps h hc hppn
    · split at he
      · exact Option.noConfusion he
      · rename_i gp hgp
        cases he
        exact insertDict_keeps h hc ((h.2 pp hppn).2.2.2 gp hgp)
    · cases he
      exact insertArr_keeps h hc hppn
    · cases he
      exact ⟨h, keepsOld_refl n m⟩

/-- The key-descent adjustment keeps the copy cursor fresh. -/
theorem copyStepdown_prev {n : Nat} {m : Mem} (h : memOK n m) (pcur pcopycur : Nat)
    (hc : n ≤ pcopycur) :
    ∀ out, plist_copyStepdown m pcur pcopycur = some out → n ≤ out.2.1 := by
  intro out he
  unfold plist_copyStepdown at he
  split at he
  · split at he
    · rename_i nv cv hnv hcv
      cases he
      exact (h.2 pcopycur hc).2.1 cv hcv
    · exact Option.noConfusion he
  · cases he
    exact hc

/-- The copy loop preserves the frontier invariants and hands back a fresh
partial destination. -/
theorem copyLoop_keeps {n : Nat} : ∀ (fuel : Nat) (m : Mem) (src pcur : Nat)
    (dst pcopyprev : Option Nat), memOK n m →
    (∀ v, dst = some v → n ≤ v) → (∀ v, pcopyprev = some v → n ≤ v) →
    memOK n (plist_copyLoop fuel m src pcur dst pcopyprev).2.2 ∧
    keepsOld n m (plist_copyLoop fuel m src pcur dst pcopyprev).2.2 ∧
    (∀ r, (plist_copyLoop fuel m src pcur dst pcopyprev).2.1 = some r → n ≤ r) := by
  intro fuel
  induction fuel with
  | zero =>
    intro m src pcur dst prev hm hdst hprev
    exact ⟨memOK_crash hm, keepsOld_crash n m, hdst⟩
  | succ fuel ih =>
    intro m src pcur dst prev hm hdst hprev
    have hce := copyelem_keeps hm pcur
    have hrun : plist_copyLoop (fuel + 1) m src pcur dst prev =
        (match plist_copyelem m pcur with
        | (e, none, m2) => (e, dst, m2)
        | (_, some pcopycur, m2) =>
          match plist_copyInsert m2 pcopycur prev with
          | none => (ECRASH, some (dst.getD pcopycur), m2.crash)
          | some m3 =>
            match plist_copyStepdown m3 pcur pcopycur with
            | none => (ECRASH, some (dst.getD pcopycur), m3.crash)
            | some (pnext1, pcopyprev1, pcur1) =>
              match plist_copyFirstChild m3 pnext1 with
              | some c =>
                plist_copyLoop fuel m3 src c (some (dst.getD pcopycur)) (some pcopyprev1)
              | none =>
                match plist_copyAscend (m3.heap.length + 1) m3 src pcur1
                    (some pcopyprev1) with
                | none => (ECRASH, some (dst.getD pcopycur), m3.crash)
                | some (none, _) => (0, some (dst.getD pcopycur), m3)
                | some (some nxt, pcp) =>
                  plist_copyLoop fuel m3 src nxt (some (dst.getD pcopycur)) pcp) := rfl
    rw [hrun]
    split
    · rename_i e m2 heq
      rw [heq] at hce
      exact ⟨hce.1, hce.2.1, hdst⟩
    · rename_i fst pcopycur m2 heq
      rw [heq] at hce
      have hcc : n ≤ pcopycur := hce.2.2 pcopycur rfl
      have hdst2 : ∀ v, some (dst.getD pcopycur) = some v → n ≤ v := by
        intro v hv
        cases hv
        cases dst with
        | none => exact hcc
        | some d => exact hdst d rfl
      split
      · exact ⟨memOK_crash hce.1,
               keepsOld_trans hce.2.1 (keepsOld_crash n m2), hdst2⟩
      · rename_i m3 heq2
        have hi := copyInsert_keeps hce.1 pcopycur hcc prev hprev m3 heq2
        have hk23 := keepsOld_trans hce.2.1 hi.2
        split
        · exact ⟨memOK_crash hi.1, keepsOld_trans hk23 (keepsOld_crash n m3), hdst2⟩
        · rename_i pnext1 pcopyprev1 pcur1 heq3
          have hp1 : n ≤ pcopyprev1 :=
            copyStepdown_prev hi.1 pcur pcopycur hcc (pnext1, pcopyprev1, pcur1) heq3
          split
          · rename_i c heq4
            have hr := ih m3 src c (some (dst.getD pcopycur)) (some pcopyprev1)
                hi.1 hdst2 (fun v hv => by cases hv; omega)
            exact ⟨hr.1, keepsOld_trans hk23 hr.2.1, hr.2.2⟩
          · split
            · exact ⟨memOK_crash hi.1,
                     keepsOld_trans hk23 (keepsOld_crash n m3), hdst2⟩
            · exact ⟨hi.1, hk23, hdst2⟩
            · rename_i nxt pcp heq5
              have hpcp : ∀ v, pcp = some v → n ≤ v :=
                ascend_prev hi.1 (m3.heap.length + 1) src pcur1
                  (some pcopyprev1) (fun v hv => by cases hv; omega)
                  (some nxt, pcp) heq5
              have hr := ih m3 src nxt (some (dst.getD pcopycur)) pcp
                  hi.1 hdst2 hpcp
              exact ⟨hr.1, keepsOld_trans hk23 hr.2.1, hr.2.2⟩

/-- plist_copy preserves the frontier invariants and returns a fresh root. -/
theorem copy_keeps {n : Nat} {m : Mem} (h : memOK n m) (src : Option Nat) :
    memOK n (plist_copy m src).2.2 ∧ keepsOld n m (plist_copy m src).2.2 ∧
    (∀ r, (plist_copy m src).2.1 = some r → n ≤ r) := by
  cases src with
  | none => exact ⟨h, keepsOld_refl n m, fun r hr => Option.noConfusion hr⟩
  | some s =>
    have hl := copyLoop_keeps (n := n) (m.heap.length + 8) m s s none none h
        (fun v hv => Option.noConfusion hv) (fun v hv => Option.noConfusion hv)
    simp only [plist_copy]
    by_cases he : (plist_copyLoop (m.heap.length + 8) m s s none none).1 = 0
    · rw [if_pos he]
      exact ⟨hl.1, hl.2.1, hl.2.2⟩
    · rw [if_neg he]
      have hf := free_keeps hl.1 (plist_copyLoop (m.heap.length + 8) m s s none none).2.1
          hl.2.2
      exact ⟨hf.1, keepsOld_trans hl.2.1 hf.2, fun r hr => Option.noConfusion hr⟩

/-- The dict-source staging phase preserves the frontier invariants and
stages only fresh copies. -/
theorem updateStage_keeps {n : Nat} : ∀ (ks : List Nat) (acc : List Nat) (m : Mem),
    memOK n m → (∀ v ∈ acc, n ≤ v) →
    memOK n (plist_updateStage m ks acc).2.2 ∧
    keepsOld n m (plist_updateStage m ks acc).2.2 ∧
    (∀ v ∈ (plist_updateStage m ks acc).2.1, n ≤ v) := by
  intro ks
  induction ks with
  | nil =>
    intro acc m hm hacc
    exact ⟨hm, keepsOld_refl n m, hacc⟩
  | cons k rest ih =>
    intro acc m hm hacc
    have hck := copy_keeps hm (some k)
    simp only [plist_updateStage]
    by_cases he : (plist_copy m (some k)).1 = 0
    · rw [if_pos he]
      cases hpc : (plist_copy m (some k)).2.1 with
      | none =>
        exact ⟨memOK_crash hck.1,
               keepsOld_trans hck.2.1 (keepsOld_crash n (plist_copy m (some k)).2.2),
               hacc⟩
      | some pc2 =>
        have hacc2 : ∀ v ∈ acc ++ [pc2], n ≤ v := by
          intro v hv
          rcases List.mem_append.mp hv with hcase | hcase
          · exact hacc v hcase
          · have hvv : v = pc2 := by simpa using hcase
            cases hvv
            exact hck.2.2 pc2 hpc
        have h2 := ih (acc ++ [pc2]) (plist_copy m (some k)).2.2 hck.1 hacc2
        exact ⟨h2.1, keepsOld_trans hck.2.1 h2.2.1, h2.2.2⟩
    · rw [if_neg he]
      exact ⟨hck.1, hck.2.1, hacc⟩

/-- The array-source staging phase preserves the frontier invariants and
stages only fresh copies. -/
theorem updateStageArr_keeps {n : Nat} : ∀ (ks : List Nat) (acc : List Nat) (m : Mem),
    memOK n m → (∀ v ∈ acc, n ≤ v) →
    memOK n (plist_updateStageArr m ks acc).2.2 ∧
    keepsOld n m (plist_updateStageArr m ks acc).2.2 ∧
    (∀ v ∈ (plist_updateStageArr m ks acc).2.1, n ≤ v) := by
  intro ks
  induction ks with
  | nil =>
    intro acc m hm hacc
    exact ⟨hm, keepsOld_refl n m, hacc⟩
  | cons k rest ih =>
    intro acc m hm hacc
    simp only [plist_updateStageArr]
    by_cases hkk : (m.node k).p_elem ≠ PElem.PLIST_KEY
    · rw [if_pos hkk]
      exact ⟨hm, keepsOld_refl n m, hacc⟩
    · rw [if_neg hkk]
      have hck := copy_keeps hm (some k)
      by_cases he : (plist_copy m (some k)).1 = 0
      · rw [if_pos he]
        cases hpc : (plist_copy m (some k)).2.1 with
        | none =>
          exact ⟨memOK_crash hck.1,
                 keepsOld_trans hck.2.1 (keepsOld_crash n (plist_copy m (some k)).2.2),
                 hacc⟩
        | some pc2 =>
          have hacc2 : ∀ v ∈ acc ++ [pc2], n ≤ v := by
            intro v hv
            rcases List.mem_append.mp hv with hcase | hcase
            · exact hacc v hcase
            · have hvv : v = pc2 := by simpa using hcase
              cases hvv
              exact hck.2.2 pc2 hpc
          have h2 := ih (acc ++ [pc2]) (plist_copy m (some k)).2.2 hck.1 hacc2
          exact ⟨h2.1, keepsOld_trans hck.2.1 h2.2.1, h2.2.2⟩
      · rw [if_neg he]
        exact ⟨hck.1, hck.2.1, hacc⟩

/-- Freeing a list of fresh nodes keeps every older entry. -/
theorem freeFold_keeps {n : Nat} : ∀ (staged : List Nat) (m : Mem),
    memOK n m → (∀ v ∈ staged, n ≤ v) →
    memOK n (staged.foldl (fun m t => plist_free m (some t)) m) ∧
    keepsOld n m (staged.foldl (fun m t => plist_free m (some t)) m) := by
  intro staged
  induction staged with
  | nil =>
    intro m hm _
    exact ⟨hm, keepsOld_refl n m⟩
  | cons t rest ih =>
    intro m hm hst
    have hf := free_keeps hm (some t)
        (fun v hv => by cases hv; exact hst t (List.mem_cons_self t rest))
    have h2 := ih (plist_free m (some t)) hf.1
        (fun v hv => hst v (List.mem_cons_of_mem t hv))
    exact ⟨h2.1, keepsOld_trans hf.2 h2.2⟩

/-- The bail path of plist_dict_update keeps every older entry. -/
theorem updateBail_keeps {n : Nat} (staged : List Nat) (m : Mem) (e : Int)
    (hm : memOK n m) (hst : ∀ v ∈ staged, n ≤ v) :
    memOK n (plist_updateBail m staged e).2 ∧
    keepsOld n m (plist_updateBail m staged e).2 :=
  freeFold_keeps staged m hm hst

/-- Claim C8: plist_dict_update is transactional.  Whenever the call
returns a nonzero error — a copy or allocation failure partway through the
staging, an unsupported source shape, or invalid arguments — every heap
entry that existed before the call is bit-for-bit unchanged; in particular
the destination dict node (its key list, order and count) reads exactly as
before the call. -/
theorem c8_update_transactional (m : Mem) (dict other : Option Nat)
    (h : (plist_dict_update m dict other).1 ≠ 0) :
    keepsOld m.heap.length m (plist_dict_update m dict other).2 ∧
    (∀ d, dict = some d → d < m.heap.length →
      (plist_dict_update m dict other).2.node d = m.node d) := by
  have hkeep : (plist_dict_update m dict other).1 = 0 ∨
      keepsOld m.heap.length m (plist_dict_update m dict other).2 := by
    unfold plist_dict_update
    split
    · rename_i d o
      by_cases hde : (m.node d).p_elem ≠ PElem.PLIST_DICT
      · rw [if_pos hde]
        exact Or.inr (keepsOld_refl _ m)
      · rw [if_neg hde]
        split
        · have hs := updateStage_keeps (n := m.heap.length) (m.node o).pd_keys [] m
              (memOK_top m) (fun v hv => absurd hv (List.not_mem_nil v))
          by_cases he : (plist_updateStage m (m.node o).pd_keys []).1 = 0
          · rw [if_pos he]
            exact Or.inl rfl
          · rw [if_neg he]
            have hb := freeFold_keeps (plist_updateStage m (m.node o).pd_keys []).2.1
                (plist_updateStage m (m.node o).pd_keys []).2.2 hs.1 hs.2.2
            exact Or.inr (keepsOld_trans hs.2.1 hb.2)
        · have hc := copy_keeps (memOK_top m) (some o)
          by_cases he : (plist_copy m (some o)).1 = 0
          · rw [if_pos he]
            cases hpc : (plist_copy m (some o)).2.1 with
            | some pc2 => exact Or.inl rfl
            | none => exact Or.inr (keepsOld_trans hc.2.1 (keepsOld_crash _ _))
          · rw [if_neg he]
            have hb := freeFold_keeps [] (plist_copy m (some o)).2.2 hc.1
                (fun v hv => absurd hv (List.not_mem_nil v))
            exact Or.inr (keepsOld_trans hc.2.1 hb.2)
        · have hs := updateStageArr_keeps (n := m.heap.length) (m.node o).pa_elems [] m
              (memOK_top m) (fun v hv => absurd hv (List.not_mem_nil v))
          by_cases he : (plist_updateStageArr m (m.node o).pa_elems []).1 = 0
          · rw [if_pos he]
            exact Or.inl rfl
          · rw [if_neg he]
            have hb := freeFold_keeps (plist_updateStageArr m (m.node o).pa_elems []).2.1
                (plist_updateStageArr m (m.node o).pa_elems []).2.2 hs.1 hs.2.2
            exact Or.inr (keepsOld_trans hs.2.1 hb.2)
        · exact Or.inr (keepsOld_refl _ m)
    · exact Or.inr (keepsOld_refl _ m)
  rcases hkeep with h0 | hk
  · exact absurd h0 h
  · exact ⟨hk, fun d _ hd => node_eq_of_keepsOld hk hd⟩

/-- Witness for claim C8 at a concrete input: on umem, the copy of the
staged key fails its second allocation, the update returns nonzero, and the
destination dict node 0 (and source dict node 1) are unchanged. -/
theorem c8_witness :
    (plist_dict_update umem (some 0) (some 1)).1 ≠ 0 ∧
    (plist_dict_update umem (some 0) (some 1)).2.node 0 = umem.node 0 ∧
    (plist_dict_update umem (some 0) (some 1)).2.node 1 = umem.node 1 :=
  ⟨by decide,
   (c8_update_transactional umem (some 0) (some 1) (by decide)).2 0 rfl (by decide),
   by decide⟩

end Plist
